import Mathlib

/-!
Verification of the Mickey2 market-data retrieval module.

The repository contains several drafts of the same browser module.  Two are
modelled here in full, matching the sources line by line:

* `MD` — the allorigins/CORS-proxy variant (`src/market-data.js`, first
  document): Yahoo v8 chart parsing, TASE batch parsing, TTL quote cache.
* `TD` — the Twelve Data / TASE variant (third document of `src/server.js`):
  API-key gate, exchange-suffix fallback (`_fetchQuoteWithFallback`),
  persistent exchange map, per-minute rate limiter (`_apiCall`), historical
  and forex caches.

Network I/O is represented by oracle functions passed explicitly: an oracle
maps a request (symbol, id or URL payload) to the parsed response the
transport layer would deliver, so the pure decision logic of the module is
embedded unchanged.  JavaScript values flowing out of `JSON.parse` are
modelled by the `Json` type together with JS truthiness (`jsTruthy`),
property access (`jsGet`, returning `none` for `undefined`) and the
`a || b` operator (`jsOrJ` / `jsOrS`).  Numeric fields are extracted as
rationals; non-numeric values in numeric positions (which JavaScript would
propagate as `NaN`) are modelled as `none`.  Timestamps (`Date.now()`) are
integers supplied by the caller; consecutive readings inside one call are
collapsed to the explicitly passed instants.
-/

/-- Uppercasing of one character, as in JS `String.prototype.toUpperCase`
restricted to ASCII (the module's symbols are ASCII tickers/ids).  This is
the Lean core definition of `Char.toUpper` spelled out. -/
def upChar (c : Char) : Char :=
  if c.toNat ≥ 97 ∧ c.toNat ≤ 122 then Char.ofNat (c.toNat - 32) else c

/-- JS `s.toUpperCase()` on ASCII strings. -/
def jsUpper (s : String) : String :=
  ⟨s.data.map upChar⟩

/-- JS `a || b` for a possibly-missing string `a` (empty string is falsy). -/
def jsOrS (a : Option String) (b : String) : String :=
  match a with
  | some s => if s = "" then b else s
  | none => b

/-- Update of a string-keyed map, i.e. `m[k] = v` on a JS object. -/
def updF {α : Type} (m : String → Option α) (k : String) (v : Option α) :
    String → Option α :=
  fun s => if s = k then v else m s

/-- Parsed JSON values (the result of `JSON.parse`). -/
inductive Json where
  | null : Json
  | bool (b : Bool) : Json
  | num (q : ℚ) : Json
  | str (s : String) : Json
  | arr (elems : List Json) : Json
  | obj (fields : List (String × Json)) : Json

/-- JS truthiness of a JSON value (`NaN` is not representable in `ℚ` and is
not produced by the modelled payloads). -/
def jsTruthy : Json → Bool
  | .null => false
  | .bool b => b
  | .num q => q ≠ 0
  | .str s => s ≠ ""
  | .arr _ => true
  | .obj _ => true

/-- JS property access `j[k]`; `none` models `undefined`.  Property access on
primitives yields `undefined` (never throws); only objects carry fields. -/
def jsGet : Json → String → Option Json
  | .obj fields, k => fields.lookup k
  | _, _ => none

/-- JS index access `j[n]`.  Arrays index their elements, strings index their
characters (as 1-character strings); other values yield `undefined`. -/
def jsIndex : Json → Nat → Option Json
  | .arr elems, n => elems.get? n
  | .str s, n => (s.data.get? n).map (fun c => .str ⟨[c]⟩)
  | _, _ => none

/-- JS `a || b` on JSON values. -/
def jsOrJ (a b : Json) : Json :=
  if jsTruthy a then a else b

/-- JS strict equality `j === s` against a string literal. -/
def isStrEq (j : Json) (s : String) : Bool :=
  match j with
  | .str t => t = s
  | _ => false

/-- Numeric extraction: the rational carried by a JSON number, else `none`. -/
def jsNumQ : Json → Option ℚ
  | .num q => some q
  | _ => none

/-- The common quote shape produced by every resolver (`QuoteData` in the
sources).  `currency` and `name` are JSON values because the Yahoo resolver
passes payload fields through unchanged. -/
structure Quote where
  price : Option ℚ
  previousClose : Option ℚ
  change : Option ℚ
  changePercent : Option ℚ
  currency : Json
  name : Json

/-- A cache slot: a full quote, the `price: null` marker written for symbols
that could not be fetched, or the field-less object `Object.assign({}, null,
ts)` produces when a TASE batch item parses to `null`. -/
inductive CacheVal where
  | q (v : Quote) : CacheVal
  | noData : CacheVal
  | emptyObj : CacheVal

/-- A cache entry: the value plus its `_ts` timestamp. -/
structure CacheEntry where
  val : CacheVal
  ts : Int

/-- `/^\d{5,8}$/` — Israeli security ids are 5-8 digit numbers
(`_isIsraeliSecurity`, market-data.js). -/
def isIsraeliSecurity (s : String) : Bool :=
  decide (5 ≤ s.length) && decide (s.length ≤ 8) && s.data.all Char.isDigit

/-- `/^\d+$/` — TASE security numbers are all-digit strings
(`_isTaseNumber`, server.js Twelve Data module). -/
def isTaseNumber (s : String) : Bool :=
  decide (1 ≤ s.length) && s.data.all Char.isDigit

/-- `_parseYahooChart(json, sym)` (market-data.js).  The guard checks
`!json || !json.chart || !json.chart.result || !json.chart.result[0]` but
not `meta`; reading `meta.currency` when `meta` is `undefined` or `null`
throws a `TypeError`, modelled as the `.error` branch. -/
def parseYahooChart (json : Json) (sym : String) : Except String (Option Quote) :=
  let chart := (jsGet json "chart").getD .null
  let result := (jsGet chart "result").getD .null
  let r0 := (jsIndex result 0).getD .null
  if ¬ jsTruthy json ∨ ¬ jsTruthy chart ∨ ¬ jsTruthy result ∨ ¬ jsTruthy r0 then
    .ok none
  else
    match jsGet r0 "meta" with
    | none => .error "TypeError: cannot read properties of undefined"
    | some .null => .error "TypeError: cannot read properties of null"
    | some m =>
      let currencyRaw := (jsGet m "currency").getD .null
      let currency0 := jsOrJ currencyRaw (.str "USD")
      let currency := if isStrEq currency0 "ILA" then Json.str "ILS" else currency0
      let isILA := isStrEq currencyRaw "ILA"
      let price0 := jsNumQ ((jsGet m "regularMarketPrice").getD .null)
      let price := if isILA then price0.map (· / 100) else price0
      let prev0 := jsNumQ ((jsGet m "chartPreviousClose").getD .null)
      let prevClose := if isILA then prev0.map (· / 100) else prev0
      .ok (some
        { price := price
          previousClose := prevClose
          change :=
            match price, prevClose with
            | some p, some c => some (p - c)
            | _, _ => none
          changePercent :=
            match price, prevClose with
            | some p, some c => if c ≠ 0 then some ((p - c) / c * 100) else none
            | _, _ => none
          currency := currency
          name := jsOrJ ((jsGet m "shortName").getD .null)
            (jsOrJ ((jsGet m "longName").getD .null)
              (jsOrJ ((jsGet m "symbol").getD .null) (.str sym))) })

/-- `_parseTASEResult(id, data)` (market-data.js): converts a TASE batch item
to a quote; `!data || !data.price` fails closed, prices are agorot and are
divided by 100. -/
def parseTASEResult (id : String) (data : Json) : Option Quote :=
  if ¬ jsTruthy data ∨ ¬ jsTruthy ((jsGet data "price").getD .null) then none
  else
    some
      { price := (jsNumQ ((jsGet data "price").getD .null)).map (· / 100)
        previousClose := none
        change := none
        changePercent := jsNumQ ((jsGet data "dayYield").getD .null)
        currency := .str "ILS"
        name := jsOrJ ((jsGet data "name").getD .null) (.str id) }

/-- TASE Maya fund payload fields used by `_fetchFromTASE`
(src/unnamed/part_002). -/
structure FundDetails where
  UnitValuePrice : Option ℚ
  DayYield : Option ℚ
  FundLongName : Option String
  FundShortName : Option String

/-- The fund-payload-to-quote conversion inside `_fetchFromTASE`
(src/unnamed/part_002): `data.UnitValuePrice == null` fails closed (note:
`== null`, so a 0 price is kept), agorot are divided by 100. -/
def fundDetailsToQuote (id : String) (data : Option FundDetails) : Option Quote :=
  match data with
  | none => none
  | some d =>
    match d.UnitValuePrice with
    | none => none
    | some p =>
      some
        { price := some (p / 100)
          previousClose := none
          change := none
          changePercent := d.DayYield
          currency := .str "ILS"
          name := .str (jsOrS d.FundLongName (jsOrS d.FundShortName id)) }

namespace MD

/-! The first document of `src/market-data.js`: quote cache with TTL,
Yahoo singles via CORS proxy, TASE ids in one batch request. -/

/-- Module state: the quote cache `_cache` and the configurable `_cacheTTL`
(default 5 minutes). -/
structure State where
  cache : String → Option CacheEntry
  cacheTTL : Int

/-- The staleness test from `fetchQuotes`:
`!_cache[s] || (now - _cache[s]._ts > _cacheTTL)`. -/
def isStaleAt (cache : String → Option CacheEntry) (ttl now : Int) (s : String) : Bool :=
  match cache s with
  | none => true
  | some e => decide (now - e.ts > ttl)

/-- `symbols.map(s => s.toUpperCase())`. -/
def upperList (symbols : List String) : List String :=
  symbols.map jsUpper

/-- The list of requested symbols needing an upstream fetch. -/
def staleList (cache : String → Option CacheEntry) (ttl now : Int)
    (upper : List String) : List String :=
  upper.filter (isStaleAt cache ttl now)

/-- The `fetched` object after both provider loops.  `oracleY` abstracts the
quote `_fetchYahooSingle` delivers for a symbol (`none` when it yields no
quote); `oracleT` abstracts `_fetchTASEBatch` (`none` when the batch request
fails, otherwise the JSON item per id).  Yahoo entries are added only when
truthy (`if (quote) fetched[sym] = quote`); TASE entries are added whenever
`batchData[id]` is truthy, even when `_parseTASEResult` returns `null`. -/
def fetchedList (oracleY : String → Option Quote)
    (oracleT : List String → Option (String → Option Json))
    (stale : List String) : List (String × Option Quote) :=
  let israeliIds := stale.filter isIsraeliSecurity
  let yahooSymbols := stale.filter (fun s => ¬ isIsraeliSecurity s)
  let yFetched := yahooSymbols.filterMap (fun s => (oracleY s).map (fun q => (s, some q)))
  let tFetched :=
    if israeliIds.isEmpty then []
    else
      match oracleT israeliIds with
      | none => []
      | some batch =>
        israeliIds.filterMap (fun id =>
          let item := (batch id).getD .null
          if jsTruthy item then some (id, parseTASEResult id item) else none)
  yFetched ++ tFetched

/-- The upstream attempts of one `fetchQuotes` call: one `_fetchYahooSingle`
per non-Israeli stale symbol, and the batch request covering every stale
Israeli id (issued whenever there is at least one). -/
def attemptsList (stale : List String) : List String :=
  stale.filter (fun s => ¬ isIsraeliSecurity s) ++ stale.filter isIsraeliSecurity

/-- Truthiness of `fetched[s]` (an entry whose value is `null` is falsy). -/
def fetchedTruthy (fetched : List (String × Option Quote)) (s : String) : Bool :=
  match fetched.lookup s with
  | some (some _) => true
  | _ => false

/-- `for (var sym2 in fetched) _cache[sym2] = Object.assign({}, fetched[sym2],
{_ts: ts})`.  A `null` value yields the field-less `{_ts: ts}` entry. -/
def cacheAfterFetch (cache : String → Option CacheEntry) (ts : Int)
    (fetched : List (String × Option Quote)) : String → Option CacheEntry :=
  fetched.foldl (fun c p =>
    updF c p.1 (some
      { val := match p.2 with | some q => .q q | none => .emptyObj
        ts := ts })) cache

/-- The loop marking unfetched, uncached stale symbols with
`{price: null, _ts: ts}`: `if (!fetched[stale[i]] && !_cache[stale[i]])`. -/
def cacheAfterMark (cache : String → Option CacheEntry) (ts : Int)
    (fetched : List (String × Option Quote)) (stale : List String) :
    String → Option CacheEntry :=
  stale.foldl (fun c s =>
    if fetchedTruthy fetched s ∨ (c s).isSome then c
    else updF c s (some { val := .noData, ts := ts })) cache

/-- The returned object: each uppercased symbol mapped to its cache entry
with `_ts` removed, or `null` when absent. -/
def resultOf (cache : String → Option CacheEntry) (upper : List String) :
    List (String × Option CacheVal) :=
  upper.map (fun s => (s, (cache s).map CacheEntry.val))

/-- Output of `fetchQuotes`: the result object, the new module state, and the
symbols for which an upstream attempt was issued. -/
structure FetchOut where
  result : List (String × Option CacheVal)
  state : State
  attempts : List String

/-- `fetchQuotes(symbols)` (market-data.js, first document).  `now` is the
`Date.now()` of the staleness check, `ts` the one stamped on new entries. -/
def fetchQuotes (oracleY : String → Option Quote)
    (oracleT : List String → Option (String → Option Json))
    (st : State) (now ts : Int) (symbols : List String) : FetchOut :=
  if symbols.isEmpty then { result := [], state := st, attempts := [] }
  else
    let upper := upperList symbols
    let stale := staleList st.cache st.cacheTTL now upper
    let fetched := fetchedList oracleY oracleT stale
    let cache1 := cacheAfterFetch st.cache ts fetched
    let cache2 := cacheAfterMark cache1 ts fetched stale
    { result := resultOf cache2 upper
      state := { st with cache := cache2 }
      attempts := attemptsList stale }

/-- `getCached(symbol)`: the entry under the uppercased symbol, `_ts`
removed. -/
def getCached (st : State) (symbol : String) : Option CacheVal :=
  (st.cache (jsUpper symbol)).map CacheEntry.val

end MD

namespace TD

/-! The Twelve Data / TASE variant (third document of `src/server.js`). -/

/-- A `_historicalCache` entry. -/
structure HistEntry where
  ytdPrice : Option ℚ
  oneYearAgoPrice : Option ℚ
  ts : Int

/-- A `_forexCache` slot (`{rate, _ts}`). -/
structure ForexEntry where
  rate : ℚ
  ts : Int

/-- The `_forexCache` object. -/
structure ForexCache where
  current : Option ForexEntry
  ytdStart : Option ForexEntry
  oneYearAgo : Option ForexEntry

/-- Module state.  The `ls…` fields are the parsed contents of the four
localStorage keys (`marketDataApiKey`, `marketDataExchangeMap`,
`marketDataHistorical`, `marketDataForex`); `JSON.stringify`/`JSON.parse`
round-trips are the identity on these maps, so serialization is left
implicit. -/
structure State where
  cache : String → Option CacheEntry
  hist : String → Option HistEntry
  forex : ForexCache
  emap : String → Option String
  apiKey : String
  cacheTTL : Int
  lsApiKey : Option String
  lsEmap : String → Option String
  lsHist : String → Option HistEntry
  lsForex : ForexCache

/-- `_historicalCacheTTL` (24 hours, ms). -/
def histTTL : Int := 24 * 60 * 60 * 1000

/-- `_forexCacheTTL` (1 hour, ms). -/
def forexTTL : Int := 60 * 60 * 1000

/-- The options object accepted by `configure` (`onProgress` only drives UI
callbacks and does not influence any modelled output, so it is omitted). -/
structure ConfigureOpts where
  cacheTTL : Option Int
  apiKey : Option String

/-- `configure(options)`: an `apiKey` is stored in the module variable and
persisted under `marketDataApiKey`. -/
def configure (opts : ConfigureOpts) (st : State) : State :=
  let st1 :=
    match opts.cacheTTL with
    | some t => { st with cacheTTL := t }
    | none => st
  match opts.apiKey with
  | some k => { st1 with apiKey := k, lsApiKey := some k }
  | none => st1

/-- `getApiKey()`. -/
def getApiKey (st : State) : String := st.apiKey

/-- Module initialization against the persisted store:
`_apiKey = localStorage.getItem(STORAGE_KEY) || ''` and the three
`_load…` functions (cache starts empty, TTL back to the 5-minute
default). -/
def reload (st : State) : State :=
  { cache := fun _ => none
    hist := st.lsHist
    forex := st.lsForex
    emap := st.lsEmap
    apiKey := (st.lsApiKey).getD ""
    cacheTTL := 5 * 60 * 1000
    lsApiKey := st.lsApiKey
    lsEmap := st.lsEmap
    lsHist := st.lsHist
    lsForex := st.lsForex }

/-- The TASE `securitydata` payload fields used by `_fetchTaseQuote`.
Numeric fields are `none` when absent or `null`. -/
structure TASESec where
  LastRate : Option ℚ
  BaseRate : Option ℚ
  Change : Option ℚ
  AnnualYield : Option ℚ
  SecurityLongName : Option String
  CompanyName : Option String
  Name : Option String

/-- `_fetchTaseQuote(symbol)`.  `taseOracle` abstracts the `_fetchViaProxy`
chain (parsed payload or `null`).  `!data.LastRate` fails closed; prices are
agorot divided by 100; the historical cache is pre-populated from
`AnnualYield` and persisted.  (An `AnnualYield` of exactly −100 would divide
by zero — JS yields `Infinity`; the field never takes that value in TASE
data and the quotient is left as the rational 0 in that case.) -/
def fetchTaseQuote (taseOracle : String → Option TASESec) (st : State)
    (nowT : Int) (symbol : String) : Option Quote × State :=
  match taseOracle symbol with
  | none => (none, st)
  | some d =>
    match d.LastRate with
    | none => (none, st)
    | some lr =>
      if lr = 0 then (none, st)
      else
        let price := lr / 100
        let oya : Option ℚ :=
          match d.AnnualYield with
          | some ay => if ay ≠ 0 then some (price / (1 + ay / 100)) else none
          | none => none
        let hist1 := updF st.hist symbol (some
          { ytdPrice := none, oneYearAgoPrice := oya, ts := nowT })
        (some
          { price := some price
            previousClose :=
              match d.BaseRate with
              | some b => if b ≠ 0 then some (b / 100) else none
              | none => none
            change :=
              match d.BaseRate with
              | some b => if b ≠ 0 then some ((lr - b) / 100) else none
              | none => none
            changePercent :=
              match d.Change with
              | some c => if c ≠ 0 then some c else none
              | none => none
            currency := .str "ILS"
            name := .str (jsOrS d.SecurityLongName
              (jsOrS d.CompanyName (jsOrS d.Name symbol))) },
          { st with hist := hist1, lsHist := hist1 })

/-- A Twelve Data `/quote` response.  The upstream numeric fields are JSON
strings fed to `parseFloat`; they are modelled as the parsed rational, with
`none` for absent/`null`/empty (all falsy in the source's guards). -/
structure TDResp where
  code : Option Int
  message : Option String
  symbol : Option String
  close : Option ℚ
  previous_close : Option ℚ
  change : Option ℚ
  percent_change : Option ℚ
  currency : Option String
  name : Option String

/-- Truthiness of `q.code`. -/
def codeTruthy (c : Option Int) : Bool :=
  match c with
  | some v => v ≠ 0
  | none => false

/-- Truthiness of an optional string field (empty string is falsy). -/
def strTruthy (s : Option String) : Bool :=
  match s with
  | some v => v ≠ ""
  | none => false

/-- `EXCHANGES`. -/
def EXCHANGES : List String := ["NYSE", "NASDAQ", "TSX"]

/-- `_resolvedSymbol(symbol)`: `_exchangeMap[symbol] || symbol`. -/
def resolvedSymbol (emap : String → Option String) (symbol : String) : String :=
  jsOrS (emap symbol) symbol

/-- The candidate list built at the top of `_fetchQuoteWithFallback`: the
resolved symbol, plus the exchange-suffix trial list only when the symbol
has no (truthy) exchange-map entry. -/
def trySymbolsOf (emap : String → Option String) (symbol : String) : List String :=
  let base := [resolvedSymbol emap symbol]
  if strTruthy (emap symbol) then base
  else
    EXCHANGES.foldl (fun acc ex =>
      let suffixed := symbol ++ ":" ++ ex
      if acc.contains suffixed then acc else acc ++ [suffixed]) base

/-- `err.message.indexOf('Invalid API key') !== -1`. -/
def mentionsInvalidKey (msg : String) : Bool :=
  decide (1 < (msg.splitOn "Invalid API key").length)

/-- The quote built from a successful Twelve Data response. -/
def quoteOfTDResp (q : TDResp) : Quote :=
  { price := q.close
    previousClose := q.previous_close
    change := q.change
    changePercent := q.percent_change
    currency := .str (jsOrS q.currency "USD")
    name := .str (jsOrS q.name (q.symbol.getD "")) }

/-- The try-loop of `_fetchQuoteWithFallback` over the candidate symbols.
`oracle` abstracts `_apiCall` (parsed JSON or `null`).  A 401 with a message
mentioning 'Invalid API key' is rethrown out of the loop; any other 401 is
swallowed by the catch (its message lacks the probed substring) and the next
candidate is tried.  On success the winning candidate is returned with the
quote. -/
def tryFetchLoop (oracle : String → Option TDResp) :
    List String → Except String (Option (Quote × String))
  | [] => .ok none
  | sym :: rest =>
    match oracle sym with
    | none => tryFetchLoop oracle rest
    | some q =>
      if codeTruthy q.code ∧ q.code = some 401 then
        let msg := jsOrS q.message "Invalid API key"
        if mentionsInvalidKey msg then .error msg else tryFetchLoop oracle rest
      else if codeTruthy q.code then tryFetchLoop oracle rest
      else if strTruthy q.symbol ∧ q.close.isSome then
        .ok (some (quoteOfTDResp q, sym))
      else tryFetchLoop oracle rest

/-- `_fetchQuoteWithFallback(symbol)`: TASE numbers go to the TASE API; other
symbols run the candidate loop, and a success stores the winning candidate
in `_exchangeMap` and persists the map at once (`_saveExchangeMap`). -/
def fetchQuoteWithFallback (oracle : String → Option TDResp)
    (taseOracle : String → Option TASESec) (st : State) (nowT : Int)
    (symbol : String) : Except String (Option Quote) × State :=
  if isTaseNumber symbol then
    let r := fetchTaseQuote taseOracle st nowT symbol
    (.ok r.1, r.2)
  else
    match tryFetchLoop oracle (trySymbolsOf st.emap symbol) with
    | .error e => (.error e, st)
    | .ok none => (.ok none, st)
    | .ok (some (q, w)) =>
      let emap1 := updF st.emap symbol (some w)
      (.ok (some q), { st with emap := emap1, lsEmap := emap1 })

/-- `_fetchAllQuotes(symbols)`: sequential loop; per-symbol failures are
caught and logged, a success updates the cache immediately. -/
def fetchAllQuotes (oracle : String → Option TDResp)
    (taseOracle : String → Option TASESec) (ts : Int) :
    State → List String → State
  | st, [] => st
  | st, sym :: rest =>
    fetchAllQuotes oracle taseOracle ts
      (match fetchQuoteWithFallback oracle taseOracle st ts sym with
       | (.ok (some q), s1) =>
         { s1 with cache := updF s1.cache sym (some { val := .q q, ts := ts }) }
       | (_, s1) => s1) rest

/-- The loop marking still-uncached stale symbols with `{price: null,
_ts: ts}` (`if (!_cache[stale[i]]) _cache[stale[i]] = {price: null, _ts:
ts}`). -/
def cacheMark (ts : Int) (stale : List String)
    (cache : String → Option CacheEntry) : String → Option CacheEntry :=
  stale.foldl (fun c s =>
    if (c s).isSome then c
    else updF c s (some { val := .noData, ts := ts })) cache

/-- Output of the Twelve Data `fetchQuotes`: the result (or the rejection),
the new state, and the symbols for which upstream attempts were issued
(each symbol handed to `_fetchAllQuotes` triggers at least one `_apiCall`
or TASE proxy fetch — visible in `tryFetchLoop`/`fetchTaseQuote`). -/
structure FetchOut where
  result : Except String (List (String × Option CacheVal))
  state : State
  attempts : List String

/-- `fetchQuotes(symbols)` (Twelve Data variant).  Stale symbols outside the
TASE family require `_apiKey`; a missing key rejects the whole call with
'API key not set' before any fetch. -/
def fetchQuotes (oracle : String → Option TDResp)
    (taseOracle : String → Option TASESec) (st : State) (now ts : Int)
    (symbols : List String) : FetchOut :=
  if symbols.isEmpty then { result := .ok [], state := st, attempts := [] }
  else
    let upper := MD.upperList symbols
    let stale := MD.staleList st.cache st.cacheTTL now upper
    if stale.isEmpty then
      { result := .ok (MD.resultOf st.cache upper), state := st, attempts := [] }
    else
      if stale.any (fun s => ¬ isTaseNumber s) ∧ st.apiKey = "" then
        { result := .error "API key not set", state := st, attempts := [] }
      else
        let st1 := fetchAllQuotes oracle taseOracle ts st stale
        let cache2 := cacheMark ts stale st1.cache
        { result := .ok (MD.resultOf cache2 upper)
          state := { st1 with cache := cache2 }
          attempts := stale }

/-- `getCached(symbol)` (Twelve Data variant). -/
def getCached (st : State) (symbol : String) : Option CacheVal :=
  (st.cache (jsUpper symbol)).map CacheEntry.val

/-- `fetchHistorical(symbols)`.  `histOracle` abstracts the two
`_fetchTimeSeries` calls per symbol (YTD-window close, 1-year-ago-window
close); TASE numbers short-circuit to `null` in `_fetchTimeSeries`. -/
def fetchHistorical (histOracle : String → Option ℚ × Option ℚ) (st : State)
    (now ts : Int) (symbols : List String) :
    Except String (List (String × Option (Option ℚ × Option ℚ))) × State :=
  if symbols.isEmpty then (.ok [], st)
  else
    if symbols.any (fun s => ¬ isTaseNumber (jsUpper s)) ∧ st.apiKey = "" then
      (.error "API key not set", st)
    else
      let upper := MD.upperList symbols
      let stale := upper.filter (fun s =>
        match st.hist s with
        | none => true
        | some e => decide (now - e.ts > histTTL))
      let st1 := stale.foldl (fun s sym =>
        let v := if isTaseNumber sym then ((none : Option ℚ), (none : Option ℚ))
          else histOracle sym
        let h1 := updF s.hist sym (some
          { ytdPrice := v.1, oneYearAgoPrice := v.2, ts := ts })
        { s with hist := h1, lsHist := h1 }) st
      (.ok (upper.map (fun s =>
        (s, (st1.hist s).map (fun e => (e.ytdPrice, e.oneYearAgoPrice))))), st1)

/-- `fetchForexRates()`.  `fxQuote` abstracts the USD/ILS `/quote` call
(`some r` when `q && !q.code && q.close` holds, with `r` the parsed close);
`fxSeries` abstracts the two `_fetchForexTimeSeries` calls.  The persisted
copy is written only on the saves the source performs. -/
def fetchForexRates (fxQuote : Option ℚ) (fxSeries : Option ℚ × Option ℚ)
    (st : State) (now ts : Int) :
    Except String (Option ℚ × Option ℚ × Option ℚ) × State :=
  if st.apiKey = "" then (.error "API key not set", st)
  else
    let needCurrent :=
      match st.forex.current with
      | none => true
      | some e => decide (now - e.ts > forexTTL)
    let p1 :=
      if needCurrent then
        match fxQuote with
        | some r =>
          let f := { st.forex with current := some { rate := r, ts := ts } }
          (f, f)
        | none => (st.forex, st.lsForex)
      else (st.forex, st.lsForex)
    let needHist :=
      match p1.1.ytdStart with
      | none => true
      | some e => decide (now - e.ts > histTTL)
    let p2 :=
      if needHist then
        let fa :=
          match fxSeries.1 with
          | some y => { p1.1 with ytdStart := some { rate := y, ts := ts } }
          | none => p1.1
        let fb :=
          match fxSeries.2 with
          | some o => { fa with oneYearAgo := some { rate := o, ts := ts } }
          | none => fa
        (fb, fb)
      else p1
    (.ok (p2.1.current.map ForexEntry.rate, p2.1.ytdStart.map ForexEntry.rate,
        p2.1.oneYearAgo.map ForexEntry.rate),
      { st with forex := p2.1, lsForex := p2.2 })

end TD

namespace RL

/-! The proactive rate limiter at the top of `_apiCall` (server.js, Twelve
Data module). -/

/-- `MAX_CALLS_PER_MINUTE` — the free-tier per-minute quota. -/
def MAX_CALLS_PER_MINUTE : Nat := 8

/-- `_callTimestamps.filter(t => now - t < 60000)`. -/
def pruneWindow (stamps : List Int) (now : Int) : List Int :=
  stamps.filter (fun t => decide (now - t < 60000))

/-- The instant at which the call is actually dispatched (the `Date.now()`
recorded by the `push` after the proactive wait): when the pruned window
already holds the quota, the code sleeps
`60000 - (now - _callTimestamps[0]) + 200` ms. -/
def dispatchTime (stamps : List Int) (now : Int) : Int :=
  let pruned := pruneWindow stamps now
  if MAX_CALLS_PER_MINUTE ≤ pruned.length then
    let waitTime := 60000 - (now - pruned.headD 0) + 200
    if 0 < waitTime then now + waitTime else now
  else now

/-- The timestamp list after one `_apiCall` admission: pruned, then the new
call's dispatch instant pushed. -/
def recordCall (stamps : List Int) (now : Int) : List Int :=
  pruneWindow stamps now ++ [dispatchTime stamps now]

/-- The dispatch instants of a sequence of `_apiCall`s.  `reqs` are the
instants the calls are requested; since the callers `await` each call, the
nth call cannot be requested before the (n−1)th was dispatched, so the
effective clock reading is `max` of the request instant and the previous
dispatch. -/
def runCalls (stamps : List Int) (last : Int) : List Int → List Int
  | [] => []
  | r :: rs =>
    let now := max r last
    let d := dispatchTime stamps now
    d :: runCalls (recordCall stamps now) d rs

/-- The number of entries of `L` inside the sliding window `(T−60000, T]`. -/
def countIn (L : List Int) (T : Int) : Nat :=
  L.countP (fun t => decide (T - t < 60000 ∧ t ≤ T))

end RL

namespace PX

/-! `_fetchViaProxy(targetUrl)` (server.js, Twelve Data module): the CORS
proxy chain for TASE requests. -/

/-- What one proxy returns for the target URL: a network/CORS failure
(`fetch` rejected), or an HTTP response with its `ok` flag and body text. -/
inductive ProxyResp where
  | netError : ProxyResp
  | httpResp (ok : Bool) (body : String) : ProxyResp

/-- The proxy loop: skip on failure or non-OK status; skip when
`text.charAt(0)` is neither `'\x7b'` nor `'\x5b'` (an HTML block/challenge
page); otherwise `JSON.parse(text)` — modelled by the `parses` predicate —
whose exception is caught by the surrounding `try`, moving to the next
proxy.  The successfully parsed body is returned (`none` models the
`return null` after the loop, so no exception ever escapes). -/
def fetchViaProxy (parses : String → Bool) : List ProxyResp → Option String
  | [] => none
  | .netError :: rest => fetchViaProxy parses rest
  | .httpResp ok body :: rest =>
    if ¬ ok then fetchViaProxy parses rest
    else
      match body.data with
      | [] => fetchViaProxy parses rest
      | c :: _ =>
        if c ≠ '\x7b' ∧ c ≠ '\x5b' then fetchViaProxy parses rest
        else if parses body then some body
        else fetchViaProxy parses rest

/-- The first non-whitespace character of a body, if any. -/
def firstNonWs (s : String) : Option Char :=
  (s.data.dropWhile Char.isWhitespace).head?

end PX

/-! Concrete fixtures used by the closed instantiations below. -/

/-- A fresh Twelve Data module state: empty caches, no persisted data, no
API key, default 5-minute TTL. -/
def st0TD : TD.State :=
  { cache := fun _ => none
    hist := fun _ => none
    forex := { current := none, ytdStart := none, oneYearAgo := none }
    emap := fun _ => none
    apiKey := ""
    cacheTTL := 5 * 60 * 1000
    lsApiKey := none
    lsEmap := fun _ => none
    lsHist := fun _ => none
    lsForex := { current := none, ytdStart := none, oneYearAgo := none } }

/-- The same state with an API key configured. -/
def stKeyTD : TD.State := { st0TD with apiKey := "K" }

/-- An upstream that never returns data. -/
def noTDOracle : String → Option TD.TDResp := fun _ => none

/-- A TASE upstream that never returns data. -/
def noTaseOracle : String → Option TD.TASESec := fun _ => none

/-- A Yahoo upstream that never returns a quote. -/
def noYOracle : String → Option Quote := fun _ => none

/-- A TASE batch endpoint that always fails. -/
def noTBatch : List String → Option (String → Option Json) := fun _ => none

/-- A stale cached quote used by the negative-caching scenario. -/
def q0 : Quote :=
  { price := some 5
    previousClose := none
    change := none
    changePercent := none
    currency := .str "USD"
    name := .str "Old" }

/-- A market-data.js state holding one AAPL entry stamped at time 0. -/
def st9MD : MD.State :=
  { cache := fun s => if s = "AAPL" then some { val := .q q0, ts := 0 } else none
    cacheTTL := 300000 }

/-- An empty market-data.js state. -/
def st0MD : MD.State :=
  { cache := fun _ => none, cacheTTL := 300000 }

/-- A Twelve Data state holding one fresh AAPL entry stamped at time 0. -/
def stFreshTD : TD.State :=
  { st0TD with
    cache := fun s => if s = "AAPL" then some { val := .q q0, ts := 0 } else none }

/-- A successful Twelve Data `/quote` response for the NYSE-suffixed trial
symbol. -/
def resp7 : TD.TDResp :=
  { code := none
    message := none
    symbol := some "CAAP"
    close := some 10
    previous_close := some 9
    change := some 1
    percent_change := some (10 / 9)
    currency := some "USD"
    name := some "Corp America" }

/-- An upstream that answers only for the NYSE-suffixed candidate. -/
def oracle7 : String → Option TD.TDResp :=
  fun s => if s = "CAAP:NYSE" then some resp7 else none

/-- The quote `_fetchQuoteWithFallback` builds from `resp7`. -/
def q7 : Quote := TD.quoteOfTDResp resp7

/-- The state after the successful CAAP resolution: the winning candidate is
stored in the exchange map and persisted. -/
def st7 : TD.State :=
  { st0TD with
    emap := updF st0TD.emap "CAAP" (some "CAAP:NYSE")
    lsEmap := updF st0TD.emap "CAAP" (some "CAAP:NYSE") }

/-! General-purpose lemmas. -/

theorem char_toNat_ofNat_lt (n : Nat) (h : n < 55296) : (Char.ofNat n).toNat = n := by
  have hv : n.isValidChar := Or.inl h
  simp [Char.ofNat, dif_pos hv, Char.ofNatAux, Char.toNat, UInt32.toNat,
    BitVec.toNat_ofNatLt]

theorem upChar_idem (c : Char) : upChar (upChar c) = upChar c := by
  by_cases h : c.toNat ≥ 97 ∧ c.toNat ≤ 122
  · have h1 : upChar c = Char.ofNat (c.toNat - 32) := by
      unfold upChar; rw [if_pos h]
    have h2 : (upChar c).toNat = c.toNat - 32 := by
      rw [h1]; exact char_toNat_ofNat_lt _ (by omega)
    conv_lhs => rw [upChar]
    rw [if_neg]
    rw [h2]; omega
  · have h1 : upChar c = c := by unfold upChar; rw [if_neg h]
    rw [h1, h1]

theorem jsUpper_idem (s : String) : jsUpper (jsUpper s) = jsUpper s := by
  show String.mk ((s.data.map upChar).map upChar) = String.mk (s.data.map upChar)
  rw [List.map_map]
  exact congrArg String.mk (List.map_congr_left (fun a _ => upChar_idem a))

theorem jsUpper_fix_of_mem {symbols : List String} {u : String}
    (h : u ∈ MD.upperList symbols) : jsUpper u = u := by
  rcases List.mem_map.mp h with ⟨s, _, rfl⟩
  exact jsUpper_idem s

/-- Folds that write a string-keyed map only at the keys of their input list
leave every other key unchanged. -/
theorem foldl_write_preserve {α β : Type}
    (g : (String → Option α) → β → (String → Option α)) (key : β → String)
    (hg : ∀ c b u, u ≠ key b → g c b u = c u) :
    ∀ (l : List β) (c : String → Option α) (u : String),
      (∀ b ∈ l, key b ≠ u) → (l.foldl g c) u = c u := by
  intro l
  induction l with
  | nil => intro c u _; rfl
  | cons b t ih =>
    intro c u hu
    have h1 : (List.foldl g (g c b) t) u = (g c b) u :=
      ih (g c b) u (fun b' hb' => hu b' (List.mem_cons_of_mem _ hb'))
    calc (List.foldl g c (b :: t)) u = (List.foldl g (g c b) t) u := rfl
      _ = (g c b) u := h1
      _ = c u := hg c b u (Ne.symm (hu b (List.mem_cons_self _ _)))

/-- Conversely, a key that is populated after such a fold was either already
populated or is one of the written keys. -/
theorem foldl_write_isSome {α β : Type}
    (g : (String → Option α) → β → (String → Option α)) (key : β → String)
    (hg : ∀ c b u, u ≠ key b → g c b u = c u) :
    ∀ (l : List β) (c : String → Option α) (u : String),
      ((l.foldl g c) u).isSome = true →
      (c u).isSome = true ∨ ∃ b ∈ l, key b = u := by
  intro l
  induction l with
  | nil => intro c u h; exact Or.inl h
  | cons b t ih =>
    intro c u h
    rcases ih (g c b) u h with h1 | ⟨b', hb', hk⟩
    · by_cases he : u = key b
      · exact Or.inr ⟨b, List.mem_cons_self _ _, he.symm⟩
      · rw [hg c b u he] at h1
        exact Or.inl h1
    · exact Or.inr ⟨b', List.mem_cons_of_mem _ hb', hk⟩

theorem lookup_map_self {α : Type} (g : String → α) :
    ∀ (l : List String) (u : String), u ∈ l →
      (l.map (fun s => (s, g s))).lookup u = some (g u) := by
  intro l
  induction l with
  | nil => intro u h; cases h
  | cons a t ih =>
    intro u h
    by_cases he : u = a
    · subst he
      simp [List.lookup]
    · rcases List.mem_cons.mp h with h1 | h1
      · exact absurd h1 he
      · simpa [List.lookup, beq_false_of_ne he] using ih u h1

theorem lookup_none_keys {α : Type} :
    ∀ (l : List (String × α)) (u : String), l.lookup u = none →
      ∀ p ∈ l, p.1 ≠ u := by
  intro l
  induction l with
  | nil => intro u _ p hp; cases hp
  | cons a t ih =>
    intro u h p hp
    by_cases he : u = a.1
    · subst he
      simp [List.lookup] at h
    · rcases List.mem_cons.mp hp with h1 | h1
      · subst h1; exact fun hc => he hc.symm
      · have h2 : t.lookup u = none := by
          simpa [List.lookup, beq_false_of_ne he] using h
        exact ih u h2 p h1

/-! Lemmas about the market-data.js model. -/

theorem fetchedList_keys {oracleY oracleT stale} :
    ∀ p ∈ MD.fetchedList oracleY oracleT stale, p.1 ∈ stale := by
  intro p hp
  simp only [MD.fetchedList] at hp
  rcases List.mem_append.mp hp with h | h
  · rcases List.mem_filterMap.mp h with ⟨s, hs, he⟩
    rcases Option.map_eq_some'.mp he with ⟨q1, _, rfl⟩
    exact List.mem_of_mem_filter hs
  · by_cases hie : (stale.filter isIsraeliSecurity).isEmpty
    · rw [if_pos hie] at h; cases h
    · rw [if_neg hie] at h
      rcases ho : oracleT (stale.filter isIsraeliSecurity) with _ | batch
      · rw [ho] at h; cases h
      · rw [ho] at h
        rcases List.mem_filterMap.mp h with ⟨id, hid, he⟩
        by_cases ht : jsTruthy ((batch id).getD .null) = true
        · rw [if_pos ht] at he
          cases he
          exact List.mem_of_mem_filter hid
        · rw [if_neg ht] at he; cases he

theorem attemptsList_mem {stale : List String} {u : String} :
    u ∈ MD.attemptsList stale ↔ u ∈ stale := by
  unfold MD.attemptsList
  constructor
  · intro h
    rcases List.mem_append.mp h with h | h
    · exact List.mem_of_mem_filter h
    · exact List.mem_of_mem_filter h
  · intro h
    by_cases hi : isIsraeliSecurity u = true
    · exact List.mem_append.mpr (Or.inr (List.mem_filter.mpr ⟨h, hi⟩))
    · exact List.mem_append.mpr (Or.inl (List.mem_filter.mpr ⟨h, by
        simpa using hi⟩))

theorem cacheAfterFetch_preserve {cache ts fetched} {u : String}
    (h : ∀ p ∈ fetched, (p : String × Option Quote).1 ≠ u) :
    MD.cacheAfterFetch cache ts fetched u = cache u :=
  foldl_write_preserve _ Prod.fst
    (fun c b v hv => by simp [updF, hv]) fetched cache u h

theorem cacheAfterMark_preserve {cache ts fetched stale} {u : String}
    (h : ∀ s ∈ stale, s ≠ u) :
    MD.cacheAfterMark cache ts fetched stale u = cache u :=
  foldl_write_preserve _ id
    (fun c b v hv => by
      by_cases hb : MD.fetchedTruthy fetched b ∨ (c b).isSome
      · simp only [if_pos hb]
      · simp only [if_neg hb, updF]
        rw [if_neg (by simpa using hv)]) stale cache u h

theorem resultOf_lookup {cache : String → Option CacheEntry}
    {upper : List String} {u : String} (h : u ∈ upper) :
    (MD.resultOf cache upper).lookup u = some ((cache u).map CacheEntry.val) :=
  lookup_map_self (fun s => (cache s).map CacheEntry.val) upper u h

/-- Claim C2 (confirmed): a TASE provider payload carrying a minor-unit
price of 27650 agorot resolves to a quote priced 276.50 ILS, and in general
every minor-unit price `p` accepted by a TASE resolver is divided by 100 at
ingestion: `_parseTASEResult` (market-data.js), the fund conversion of
`_fetchFromTASE` (part_002), and `_fetchTaseQuote` (server.js Twelve Data
module). -/
theorem c2_minor_unit_conversion :
    ((parseTASEResult "512345" (.obj [("price", .num 27650)])).map Quote.price
        = some (some (553 / 2 : ℚ)))
    ∧ (∀ (id : String) (data : Json) (p : ℚ),
        jsGet data "price" = some (.num p) → p ≠ 0 →
        ∃ q2, parseTASEResult id data = some q2 ∧ q2.price = some (p / 100))
    ∧ (∀ (id : String) (d : FundDetails) (p : ℚ), d.UnitValuePrice = some p →
        ∃ q2, fundDetailsToQuote id (some d) = some q2 ∧ q2.price = some (p / 100))
    ∧ (∀ (taseOracle : String → Option TD.TASESec) (st : TD.State)
        (nowT : Int) (sym : String) (d : TD.TASESec) (lr : ℚ),
        taseOracle sym = some d → d.LastRate = some lr → lr ≠ 0 →
        ∃ q2 st2, TD.fetchTaseQuote taseOracle st nowT sym = (some q2, st2) ∧
          q2.price = some (lr / 100)) := by
  refine ⟨?_, ?_, ?_, ?_⟩
  · show (parseTASEResult "512345" (.obj [("price", .num 27650)])).map Quote.price
      = some (some (553 / 2 : ℚ))
    norm_num [parseTASEResult, jsGet, jsTruthy, jsNumQ, List.lookup]
  · intro id data p hp hp0
    have hobj : jsTruthy data = true := by
      cases data <;> simp_all [jsGet, jsTruthy]
    have h1 : parseTASEResult id data = some
        { price := some (p / 100)
          previousClose := none
          change := none
          changePercent := jsNumQ ((jsGet data "dayYield").getD .null)
          currency := .str "ILS"
          name := jsOrJ ((jsGet data "name").getD .null) (.str id) } := by
      have hnum : jsTruthy (.num p) = true := by simp [jsTruthy, hp0]
      unfold parseTASEResult
      rw [if_neg (by simp [hobj, hp, hnum])]
      rw [hp]
      simp [jsNumQ]
    exact ⟨_, h1, rfl⟩
  · intro id d p hp
    have h1 : fundDetailsToQuote id (some d) = some
        { price := some (p / 100)
          previousClose := none
          change := none
          changePercent := d.DayYield
          currency := .str "ILS"
          name := .str (jsOrS d.FundLongName (jsOrS d.FundShortName id)) } := by
      simp only [fundDetailsToQuote, hp]
    exact ⟨_, h1, rfl⟩
  · intro taseOracle st nowT sym d lr ho hlr hlr0
    simp only [TD.fetchTaseQuote, ho, hlr, if_neg hlr0]
    exact ⟨_, _, rfl, rfl⟩

/-- Claim C3 (code_bug): the spec requires every resolver to fail closed
(return `null`) on malformed payloads and never throw; but
`_parseYahooChart` reads `meta.currency` without first checking `meta`, so
the structurally unexpected payload with a chart result element lacking a
`meta` field throws a `TypeError` out of the resolver.  This theorem
evaluates the embedded resolver at the failing input. -/
theorem c3_parseYahooChart_throws_on_missing_meta :
    parseYahooChart (.obj [("chart", .obj [("result", .arr [.obj []])])]) "AAPL"
      = .error "TypeError: cannot read properties of undefined" := by
  rfl

/-- Claim C8 (confirmed): for every string `X`, `configure({apiKey: X})`
makes `getApiKey()` return `X` at once, and since `configure` persists the
key to the store and module initialization reads it back (`reload`), the
value also survives a simulated reload against the same persisted store. -/
theorem c8_apiKey_roundtrip (X : String) (st : TD.State) :
    TD.getApiKey (TD.configure { cacheTTL := none, apiKey := some X } st) = X ∧
    TD.getApiKey (TD.reload (TD.configure { cacheTTL := none, apiKey := some X } st)) = X :=
  ⟨rfl, rfl⟩

/-! Lemmas about the proxy chain. -/

theorem fetchViaProxy_skip (parses : String → Bool) (body : String)
    (rest : List PX.ProxyResp)
    (h : ∀ c, PX.firstNonWs body = some c → c ≠ '\x7b' ∧ c ≠ '\x5b') :
    PX.fetchViaProxy parses (.httpResp true body :: rest)
      = PX.fetchViaProxy parses rest := by
  show (if ¬ true then PX.fetchViaProxy parses rest
    else
      match body.data with
      | [] => PX.fetchViaProxy parses rest
      | c :: _ =>
        if c ≠ '\x7b' ∧ c ≠ '\x5b' then PX.fetchViaProxy parses rest
        else if parses body then some body
        else PX.fetchViaProxy parses rest) = PX.fetchViaProxy parses rest
  rw [if_neg (by simp)]
  rcases hb : body.data with _ | ⟨c, cs⟩
  · rfl
  · have hc : c ≠ '\x7b' ∧ c ≠ '\x5b' := by
      by_cases hw : c.isWhitespace
      · constructor <;> (intro he; subst he; exact absurd hw (by decide))
      · apply h
        unfold PX.firstNonWs
        rw [hb, List.dropWhile_cons, if_neg (by simpa using hw)]
        rfl
    show (if c ≠ '\x7b' ∧ c ≠ '\x5b' then PX.fetchViaProxy parses rest
      else if parses body then some body else PX.fetchViaProxy parses rest)
        = PX.fetchViaProxy parses rest
    rw [if_pos hc]

/-! Lemmas about the exchange-suffix fallback. -/

theorem tryFetchLoop_winner_mem (oracle : String → Option TD.TDResp) :
    ∀ (l : List String) (q2 : Quote) (w : String),
      TD.tryFetchLoop oracle l = .ok (some (q2, w)) → w ∈ l := by
  intro l
  induction l with
  | nil =>
    intro q2 w h
    simp [TD.tryFetchLoop] at h
  | cons a t ih =>
    intro q2 w h
    simp only [TD.tryFetchLoop] at h
    rcases ho : oracle a with _ | resp <;> simp only [ho] at h
    · exact List.mem_cons_of_mem _ (ih q2 w h)
    · split at h
      · split at h
        · exact absurd h (by simp)
        · exact List.mem_cons_of_mem _ (ih q2 w h)
      · split at h
        · exact List.mem_cons_of_mem _ (ih q2 w h)
        · split at h
          · simp only [Except.ok.injEq, Option.some.injEq, Prod.mk.injEq] at h
            rw [← h.2]
            exact List.mem_cons_self _ _
          · exact List.mem_cons_of_mem _ (ih q2 w h)

theorem foldl_contains_append_mem (f : String → String) :
    ∀ (exs : List String) (acc : List String) (x : String),
      x ∈ exs.foldl (fun a ex => if a.contains (f ex) then a else a ++ [f ex]) acc →
      x ∈ acc ∨ ∃ ex ∈ exs, x = f ex := by
  intro exs
  induction exs with
  | nil => intro acc x hx; exact Or.inl hx
  | cons e t ih =>
    intro acc x hx
    have hx' := ih (if acc.contains (f e) then acc else acc ++ [f e]) x hx
    rcases hx' with h1 | ⟨ex, hex, hxe⟩
    · by_cases hc : acc.contains (f e)
      · rw [if_pos hc] at h1
        exact Or.inl h1
      · rw [if_neg hc] at h1
        rcases List.mem_append.mp h1 with h2 | h2
        · exact Or.inl h2
        · exact Or.inr ⟨e, List.mem_cons_self _ _, List.mem_singleton.mp h2⟩
    · exact Or.inr ⟨ex, List.mem_cons_of_mem _ hex, hxe⟩

theorem trySymbolsOf_elem {emap : String → Option String} {symbol : String} :
    ∀ x ∈ TD.trySymbolsOf emap symbol,
      x = TD.resolvedSymbol emap symbol ∨
        ∃ ex ∈ TD.EXCHANGES, x = symbol ++ ":" ++ ex := by
  intro x hx
  unfold TD.trySymbolsOf at hx
  by_cases ht : TD.strTruthy (emap symbol)
  · rw [if_pos ht] at hx
    exact Or.inl (List.mem_singleton.mp hx)
  · rw [if_neg ht] at hx
    have := foldl_contains_append_mem (fun ex => symbol ++ ":" ++ ex)
      TD.EXCHANGES [TD.resolvedSymbol emap symbol] x hx
    rcases this with h1 | h1
    · exact Or.inl (List.mem_singleton.mp h1)
    · exact Or.inr h1

theorem append_exchange_ne_empty (a ex : String) : a ++ ":" ++ ex ≠ "" := by
  intro h
  have := congrArg String.length h
  simp [String.length_append] at this
  exact absurd this.1.2 (by decide)

theorem trySymbolsOf_ne_empty {emap : String → Option String} {symbol : String}
    (hs : symbol ≠ "") : ∀ x ∈ TD.trySymbolsOf emap symbol, x ≠ "" := by
  intro x hx
  rcases trySymbolsOf_elem x hx with h1 | ⟨ex, _, h1⟩
  · subst h1
    unfold TD.resolvedSymbol jsOrS
    rcases emap symbol with _ | e
    · exact hs
    · dsimp only
      by_cases he : e = ""
      · rw [if_pos he]; exact hs
      · rw [if_neg he]; exact he
  · subst h1
    exact append_exchange_ne_empty symbol ex

theorem fetchViaProxy_accept (parses : String → Bool) (body : String)
    (rest : List PX.ProxyResp) (hc : ∃ cs, body.data = '\x7b' :: cs)
    (hp : parses body = true) :
    PX.fetchViaProxy parses (.httpResp true body :: rest) = some body := by
  obtain ⟨cs, hb⟩ := hc
  show (if ¬ true then PX.fetchViaProxy parses rest
    else
      match body.data with
      | [] => PX.fetchViaProxy parses rest
      | c :: _ =>
        if c ≠ '\x7b' ∧ c ≠ '\x5b' then PX.fetchViaProxy parses rest
        else if parses body then some body
        else PX.fetchViaProxy parses rest) = some body
  rw [if_neg (by simp), hb]
  show (if ('\x7b' : Char) ≠ '\x7b' ∧ ('\x7b' : Char) ≠ '\x5b' then
      PX.fetchViaProxy parses rest
    else if parses body then some body
    else PX.fetchViaProxy parses rest) = some body
  rw [if_neg (by simp), if_pos hp]

/-- Claim C6 (confirmed): in `_fetchViaProxy`, a provider response whose
body's first non-whitespace character is neither a left brace nor a left
bracket is treated as a block/challenge page: that layer is abandoned and
the remaining proxies are tried (first conjunct — the call on the chain
equals the call on its tail, so no retry of the same layer and no
exception, the function being total into `Option`); and when a later layer
returns valid JSON the final result is that layer's data (second
conjunct). -/
theorem c6_html_block_skips_layer :
    (∀ (parses : String → Bool) (body : String) (rest : List PX.ProxyResp),
      (∀ c, PX.firstNonWs body = some c → c ≠ '\x7b' ∧ c ≠ '\x5b') →
      PX.fetchViaProxy parses (.httpResp true body :: rest)
        = PX.fetchViaProxy parses rest)
    ∧ (∀ (parses : String → Bool) (bodyH bodyJ : String) (rest : List PX.ProxyResp),
      (∀ c, PX.firstNonWs bodyH = some c → c ≠ '\x7b' ∧ c ≠ '\x5b') →
      bodyJ.data.head? = some '\x7b' → parses bodyJ = true →
      PX.fetchViaProxy parses (.httpResp true bodyH :: .httpResp true bodyJ :: rest)
        = some bodyJ) := by
  constructor
  · exact fetchViaProxy_skip
  · intro parses bodyH bodyJ rest hH hJ hp
    rw [fetchViaProxy_skip parses bodyH _ hH]
    apply fetchViaProxy_accept
    · rcases hbd : bodyJ.data with _ | ⟨c, cs⟩
      · rw [hbd] at hJ; simp at hJ
      · rw [hbd] at hJ
        simp only [List.head?_cons, Option.some.injEq] at hJ
        subst hJ
        exact ⟨cs, rfl⟩
    · exact hp

/-- Claim C7 (confirmed): in `_fetchQuoteWithFallback`, once a quote fetch
succeeds for some exchange-suffix candidate, the winning provider-qualified
symbol is stored in the exchange map and the map is persisted immediately
(`lsEmap` equals the in-memory map); and for every symbol with a (truthy)
resolution, the candidate list is exactly the resolved symbol — the
NYSE/NASDAQ/TSX trial list is skipped — so every subsequent fetch tries
only the resolved symbol. -/
theorem c7_exchange_resolution :
    (∀ (oracle : String → Option TD.TDResp)
      (taseOracle : String → Option TD.TASESec) (st : TD.State) (nowT : Int)
      (symbol : String) (q2 : Quote) (st2 : TD.State),
      isTaseNumber symbol = false → symbol ≠ "" →
      TD.fetchQuoteWithFallback oracle taseOracle st nowT symbol
        = (.ok (some q2), st2) →
      ∃ w, st2.emap symbol = some w ∧ w ≠ "" ∧ st2.lsEmap = st2.emap ∧
        TD.trySymbolsOf st2.emap symbol = [w])
    ∧ (∀ (emap : String → Option String) (symbol w : String),
        emap symbol = some w → w ≠ "" → TD.trySymbolsOf emap symbol = [w]) := by
  have hskip : ∀ (emap : String → Option String) (symbol w : String),
      emap symbol = some w → w ≠ "" → TD.trySymbolsOf emap symbol = [w] := by
    intro emap symbol w he hw
    unfold TD.trySymbolsOf
    rw [if_pos (by simp [TD.strTruthy, he, hw])]
    unfold TD.resolvedSymbol jsOrS
    rw [he]
    simp [hw]
  constructor
  · intro oracle taseOracle st nowT symbol q2 st2 htase hsym heq
    unfold TD.fetchQuoteWithFallback at heq
    rw [if_neg (by simp [htase])] at heq
    rcases hl : TD.tryFetchLoop oracle (TD.trySymbolsOf st.emap symbol)
      with e | (_ | ⟨q', w⟩) <;> simp only [hl] at heq
    · simp at heq
    · simp at heq
    · have hw : w ∈ TD.trySymbolsOf st.emap symbol :=
        tryFetchLoop_winner_mem oracle _ q' w hl
      have hwne : w ≠ "" := trySymbolsOf_ne_empty hsym w hw
      have hst : st2 = { st with
          emap := updF st.emap symbol (some w)
          lsEmap := updF st.emap symbol (some w) } := (congrArg Prod.snd heq).symm
      have hupd : updF st.emap symbol (some w) symbol = some w := by simp [updF]
      refine ⟨w, ?_, hwne, ?_, ?_⟩
      · rw [hst]; exact hupd
      · rw [hst]
      · rw [hst]; exact hskip _ _ _ hupd hwne
  · exact hskip

/-- Claim C5 (confirmed): when a symbol needing an upstream fetch is not an
all-numeric TASE security number and no API key is configured, the Twelve
Data `fetchQuotes` rejects with 'API key not set' — before issuing any
attempt and leaving the module state untouched — and likewise
`fetchHistorical` (whose check ranges over all requested symbols) and
`fetchForexRates`; with a key configured (in particular right after
`configure({apiKey: X})`) the same calls complete with an `.ok` result, so
the configuration error is fatal only to the rejected call. -/
theorem c5_missing_key_rejects :
    (∀ (oracle : String → Option TD.TDResp)
      (taseOracle : String → Option TD.TASESec) (st : TD.State)
      (now ts : Int) (symbols : List String),
      (MD.staleList st.cache st.cacheTTL now (MD.upperList symbols)).any
          (fun s => ¬ isTaseNumber s) = true →
      st.apiKey = "" →
      TD.fetchQuotes oracle taseOracle st now ts symbols
        = { result := .error "API key not set", state := st, attempts := [] })
    ∧ (∀ (oracle : String → Option TD.TDResp)
        (taseOracle : String → Option TD.TASESec) (st : TD.State)
        (now ts : Int) (symbols : List String), st.apiKey ≠ "" →
        ∃ r, (TD.fetchQuotes oracle taseOracle st now ts symbols).result = .ok r)
    ∧ (∀ (histOracle : String → Option ℚ × Option ℚ) (st : TD.State)
        (now ts : Int) (symbols : List String),
        symbols.any (fun s => ¬ isTaseNumber (jsUpper s)) = true →
        st.apiKey = "" →
        TD.fetchHistorical histOracle st now ts symbols
          = (.error "API key not set", st))
    ∧ (∀ (histOracle : String → Option ℚ × Option ℚ) (st : TD.State)
        (now ts : Int) (symbols : List String), st.apiKey ≠ "" →
        ∃ r, (TD.fetchHistorical histOracle st now ts symbols).1 = .ok r)
    ∧ (∀ (fxQuote : Option ℚ) (fxSeries : Option ℚ × Option ℚ) (st : TD.State)
        (now ts : Int), st.apiKey = "" →
        TD.fetchForexRates fxQuote fxSeries st now ts
          = (.error "API key not set", st))
    ∧ (∀ (fxQuote : Option ℚ) (fxSeries : Option ℚ × Option ℚ) (st : TD.State)
        (now ts : Int), st.apiKey ≠ "" →
        ∃ r, (TD.fetchForexRates fxQuote fxSeries st now ts).1 = .ok r)
    ∧ (∀ (oracle : String → Option TD.TDResp)
        (taseOracle : String → Option TD.TASESec) (st : TD.State)
        (now ts : Int) (symbols : List String) (X : String), X ≠ "" →
        ∃ r, (TD.fetchQuotes oracle taseOracle
          (TD.configure { cacheTTL := none, apiKey := some X } st)
            now ts symbols).result = .ok r) := by
  have hqok : ∀ (oracle : String → Option TD.TDResp)
      (taseOracle : String → Option TD.TASESec) (st : TD.State)
      (now ts : Int) (symbols : List String), st.apiKey ≠ "" →
      ∃ r, (TD.fetchQuotes oracle taseOracle st now ts symbols).result = .ok r := by
    intro oracle taseOracle st now ts symbols hkey
    simp only [TD.fetchQuotes]
    split
    · exact ⟨_, rfl⟩
    · split
      · exact ⟨_, rfl⟩
      · split
        · next h => exact absurd h.2 hkey
        · exact ⟨_, rfl⟩
  refine ⟨?_, hqok, ?_, ?_, ?_, ?_, ?_⟩
  · intro oracle taseOracle st now ts symbols hany hkey
    obtain ⟨x, hx, _⟩ := List.any_eq_true.mp hany
    have hs_ne : symbols.isEmpty = false := by
      rcases symbols with _ | _
      · simp [MD.upperList, MD.staleList] at hany
      · rfl
    have hst_ne :
        (MD.staleList st.cache st.cacheTTL now (MD.upperList symbols)).isEmpty
          = false := by
      rcases h2 : MD.staleList st.cache st.cacheTTL now (MD.upperList symbols)
        with _ | _
      · rw [h2] at hx; cases hx
      · rfl
    simp only [TD.fetchQuotes]
    rw [if_neg (by simp [hs_ne]), if_neg (by simp [hst_ne]), if_pos ⟨hany, hkey⟩]
  · intro histOracle st now ts symbols hany hkey
    have hs_ne : symbols.isEmpty = false := by
      rcases symbols with _ | _
      · simp at hany
      · rfl
    simp only [TD.fetchHistorical]
    rw [if_neg (by simp [hs_ne]), if_pos ⟨hany, hkey⟩]
  · intro histOracle st now ts symbols hkey
    simp only [TD.fetchHistorical]
    split
    · exact ⟨_, rfl⟩
    · split
      · next h => exact absurd h.2 hkey
      · exact ⟨_, rfl⟩
  · intro fxQuote fxSeries st now ts hkey
    simp only [TD.fetchForexRates]
    rw [if_pos hkey]
  · intro fxQuote fxSeries st now ts hkey
    simp only [TD.fetchForexRates]
    rw [if_neg hkey]
    exact ⟨_, rfl⟩
  · intro oracle taseOracle st now ts symbols X hX
    exact hqok oracle taseOracle _ now ts symbols (by
      show TD.getApiKey (TD.configure { cacheTTL := none, apiKey := some X } st) ≠ ""
      rw [show TD.getApiKey (TD.configure { cacheTTL := none, apiKey := some X } st)
        = X from rfl]
      exact hX)

/-! Lemmas about the Twelve Data fetch pipeline. -/

theorem fqwf_cache_eq (oracle : String → Option TD.TDResp)
    (taseOracle : String → Option TD.TASESec) (st : TD.State) (nowT : Int)
    (symbol : String) :
    (TD.fetchQuoteWithFallback oracle taseOracle st nowT symbol).2.cache
      = st.cache := by
  unfold TD.fetchQuoteWithFallback
  split
  · rcases hts : taseOracle symbol with _ | d
    · simp only [TD.fetchTaseQuote, hts]
    · rcases hlr : d.LastRate with _ | lr
      · simp only [TD.fetchTaseQuote, hts, hlr]
      · by_cases hz : lr = 0
        · simp only [TD.fetchTaseQuote, hts, hlr, if_pos hz]
        · simp only [TD.fetchTaseQuote, hts, hlr, if_neg hz]
  · split
    · rfl
    · rfl
    · rfl

theorem fetchAllQuotes_cache_preserve (oracle : String → Option TD.TDResp)
    (taseOracle : String → Option TD.TASESec) (ts : Int) :
    ∀ (symbols : List String) (st : TD.State) (u : String),
      (∀ s ∈ symbols, s ≠ u) →
      (TD.fetchAllQuotes oracle taseOracle ts st symbols).cache u = st.cache u := by
  intro symbols
  induction symbols with
  | nil => intro st u _; rfl
  | cons a t ih =>
    intro st u h
    have ha : a ≠ u := h a (List.mem_cons_self _ _)
    have ht : ∀ s ∈ t, s ≠ u := fun s hs => h s (List.mem_cons_of_mem _ hs)
    show (TD.fetchAllQuotes oracle taseOracle ts _ t).cache u = st.cache u
    rw [ih _ u ht]
    rcases hr : TD.fetchQuoteWithFallback oracle taseOracle st ts a with ⟨r, s1⟩
    have hc : s1.cache = st.cache := by
      have := fqwf_cache_eq oracle taseOracle st ts a
      rw [hr] at this
      exact this
    rcases r with e | o
    · simp only [hr, hc]
    · rcases o with _ | q
      · simp only [hr, hc]
      · simp only [hr]
        show updF s1.cache a (some { val := .q q, ts := ts }) u = st.cache u
        unfold updF
        rw [if_neg (Ne.symm ha), hc]

theorem cacheMark_preserve {ts : Int} {stale : List String}
    {cache : String → Option CacheEntry} {u : String}
    (h : ∀ s ∈ stale, s ≠ u) : TD.cacheMark ts stale cache u = cache u :=
  foldl_write_preserve _ id
    (fun c b v hv => by
      by_cases hb : (c b).isSome = true
      · simp only [if_pos hb]
      · simp only [if_neg hb, updF]
        rw [if_neg (by simpa using hv)]) stale cache u h

/-- Claim C1 (amended): in every `fetchQuotes` call that completes normally
(is not rejected — the Twelve Data variant rejects with 'API key not set'
before attempting anything), a requested symbol whose cache entry is within
the configured TTL triggers zero upstream attempts and its cached value is
returned unchanged (minus the internal `_ts`), while a symbol with no entry
or an entry older than the TTL is covered by at least one upstream attempt.
First conjunct: the market-data.js variant (which always completes);
second conjunct: the Twelve Data variant, conditional on completion. -/
theorem c1_ttl_gates_upstream_attempts :
    (∀ (oracleY : String → Option Quote)
      (oracleT : List String → Option (String → Option Json)) (st : MD.State)
      (now ts : Int) (symbols : List String) (s : String), s ∈ symbols →
      (∀ e, st.cache (jsUpper s) = some e → now - e.ts ≤ st.cacheTTL →
        jsUpper s ∉ (MD.fetchQuotes oracleY oracleT st now ts symbols).attempts ∧
        (MD.fetchQuotes oracleY oracleT st now ts symbols).result.lookup (jsUpper s)
          = some (some e.val)) ∧
      (MD.isStaleAt st.cache st.cacheTTL now (jsUpper s) = true →
        jsUpper s ∈ (MD.fetchQuotes oracleY oracleT st now ts symbols).attempts))
    ∧ (∀ (oracle : String → Option TD.TDResp)
      (taseOracle : String → Option TD.TASESec) (st : TD.State) (now ts : Int)
      (symbols : List String) (s : String)
      (res : List (String × Option CacheVal)) (st2 : TD.State)
      (att : List String), s ∈ symbols →
      TD.fetchQuotes oracle taseOracle st now ts symbols
        = { result := .ok res, state := st2, attempts := att } →
      (∀ e, st.cache (jsUpper s) = some e → now - e.ts ≤ st.cacheTTL →
        jsUpper s ∉ att ∧ res.lookup (jsUpper s) = some (some e.val)) ∧
      (MD.isStaleAt st.cache st.cacheTTL now (jsUpper s) = true →
        jsUpper s ∈ att)) := by
  constructor
  · intro oracleY oracleT st now ts symbols s hs
    have hsymbne : symbols.isEmpty = false := by
      rcases symbols with _ | _
      · cases hs
      · rfl
    have hu_up : jsUpper s ∈ MD.upperList symbols := List.mem_map_of_mem _ hs
    constructor
    · intro e he hfresh
      have hstale_false :
          MD.isStaleAt st.cache st.cacheTTL now (jsUpper s) = false := by
        unfold MD.isStaleAt
        rw [he]
        simp only [decide_eq_false_iff_not]
        omega
      have hnotstale : jsUpper s ∉
          MD.staleList st.cache st.cacheTTL now (MD.upperList symbols) := by
        intro hmem
        have h2 := (List.mem_filter.mp hmem).2
        rw [hstale_false] at h2
        cases h2
      constructor
      · simp only [MD.fetchQuotes]
        rw [if_neg (by simp [hsymbne])]
        intro hmem
        exact hnotstale (attemptsList_mem.mp hmem)
      · have hA : ∀ s' ∈ MD.staleList st.cache st.cacheTTL now
            (MD.upperList symbols), s' ≠ jsUpper s :=
          fun s' hs' he' => hnotstale (by rw [← he']; exact hs')
        have hB : ∀ p ∈ MD.fetchedList oracleY oracleT
            (MD.staleList st.cache st.cacheTTL now (MD.upperList symbols)),
            (p : String × Option Quote).1 ≠ jsUpper s :=
          fun p hp hpe => hnotstale (by rw [← hpe]; exact fetchedList_keys p hp)
        simp only [MD.fetchQuotes]
        rw [if_neg (by simp [hsymbne])]
        rw [resultOf_lookup hu_up]
        rw [cacheAfterMark_preserve hA, cacheAfterFetch_preserve hB, he]
        rfl
    · intro hstale
      have hmem_stale : jsUpper s ∈
          MD.staleList st.cache st.cacheTTL now (MD.upperList symbols) :=
        List.mem_filter.mpr ⟨hu_up, hstale⟩
      simp only [MD.fetchQuotes]
      rw [if_neg (by simp [hsymbne])]
      exact attemptsList_mem.mpr hmem_stale
  · intro oracle taseOracle st now ts symbols s res st2 att hs heq
    have hsymbne : symbols.isEmpty = false := by
      rcases symbols with _ | _
      · cases hs
      · rfl
    have hu_up : jsUpper s ∈ MD.upperList symbols := List.mem_map_of_mem _ hs
    simp only [TD.fetchQuotes] at heq
    rw [if_neg (by simp [hsymbne])] at heq
    by_cases hse : (MD.staleList st.cache st.cacheTTL now
        (MD.upperList symbols)).isEmpty = true
    · rw [if_pos hse] at heq
      simp only [TD.FetchOut.mk.injEq, Except.ok.injEq] at heq
      obtain ⟨hres, _, hatt⟩ := heq
      constructor
      · intro e he _
        constructor
        · rw [← hatt]
          exact List.not_mem_nil _
        · rw [← hres, resultOf_lookup hu_up, he]
          rfl
      · intro hstale
        have hmem_stale : jsUpper s ∈
            MD.staleList st.cache st.cacheTTL now (MD.upperList symbols) :=
          List.mem_filter.mpr ⟨hu_up, hstale⟩
        rw [List.isEmpty_iff] at hse
        rw [hse] at hmem_stale
        cases hmem_stale
    · rw [if_neg (by simp [hse])] at heq
      by_cases hkey : (MD.staleList st.cache st.cacheTTL now
          (MD.upperList symbols)).any (fun s => ¬ isTaseNumber s) = true ∧
          st.apiKey = ""
      · rw [if_pos hkey] at heq
        simp only [TD.FetchOut.mk.injEq] at heq
        exact absurd heq.1 (by simp)
      · rw [if_neg hkey] at heq
        simp only [TD.FetchOut.mk.injEq, Except.ok.injEq] at heq
        obtain ⟨hres, _, hatt⟩ := heq
        constructor
        · intro e he hfresh
          have hstale_false :
              MD.isStaleAt st.cache st.cacheTTL now (jsUpper s) = false := by
            unfold MD.isStaleAt
            rw [he]
            simp only [decide_eq_false_iff_not]
            omega
          have hnotstale : jsUpper s ∉
              MD.staleList st.cache st.cacheTTL now (MD.upperList symbols) := by
            intro hmem
            have h2 := (List.mem_filter.mp hmem).2
            rw [hstale_false] at h2
            cases h2
          constructor
          · rw [← hatt]
            exact hnotstale
          · have hA : ∀ s' ∈ MD.staleList st.cache st.cacheTTL now
                (MD.upperList symbols), s' ≠ jsUpper s :=
              fun s' hs' he' => hnotstale (by rw [← he']; exact hs')
            rw [← hres, resultOf_lookup hu_up]
            rw [cacheMark_preserve hA]
            rw [fetchAllQuotes_cache_preserve oracle taseOracle ts _ st
              (jsUpper s) hA, he]
            rfl
        · intro hstale
          rw [← hatt]
          exact List.mem_filter.mpr ⟨hu_up, hstale⟩

/-- Claim C9 (amended): after a `fetchQuotes` call in which a stale
requested symbol that had NO existing cache entry fails on every provider
(no `fetched` entry is produced for it), the cache holds `{price: null}`
stamped with the fetch time; a second call for the same symbol within the
TTL of that stamp performs zero upstream attempts and returns the cached
price-null quote.  (The unamended claim also covered symbols with an
expired old entry; for those the `!_cache[stale[i]]` guard skips the
marker and the old entry survives — see the counterexample.) -/
theorem c9_negative_cache_for_uncached_failures
    (oracleY : String → Option Quote)
    (oracleT : List String → Option (String → Option Json)) (st : MD.State)
    (now ts : Int) (s : String)
    (hnone : st.cache (jsUpper s) = none)
    (hfail : (MD.fetchedList oracleY oracleT
      (MD.staleList st.cache st.cacheTTL now (MD.upperList [s]))).lookup
        (jsUpper s) = none) :
    ((MD.fetchQuotes oracleY oracleT st now ts [s]).state.cache (jsUpper s)
        = some { val := .noData, ts := ts }) ∧
    (∀ now2 ts2 : Int, now2 - ts ≤ st.cacheTTL →
      (MD.fetchQuotes oracleY oracleT
        (MD.fetchQuotes oracleY oracleT st now ts [s]).state now2 ts2 [s]).attempts
          = [] ∧
      (MD.fetchQuotes oracleY oracleT
        (MD.fetchQuotes oracleY oracleT st now ts [s]).state now2 ts2
          [s]).result.lookup (jsUpper s) = some (some .noData)) := by
  have hstale : MD.staleList st.cache st.cacheTTL now (MD.upperList [s])
      = [jsUpper s] := by
    unfold MD.staleList MD.upperList
    simp [List.filter_cons, MD.isStaleAt, hnone]
  rw [hstale] at hfail
  have hkeys : ∀ p ∈ MD.fetchedList oracleY oracleT [jsUpper s],
      (p : String × Option Quote).1 ≠ jsUpper s :=
    lookup_none_keys _ _ hfail
  have hc1 : MD.cacheAfterFetch st.cache ts
      (MD.fetchedList oracleY oracleT [jsUpper s]) (jsUpper s) = none := by
    rw [cacheAfterFetch_preserve hkeys]
    exact hnone
  have hft : MD.fetchedTruthy (MD.fetchedList oracleY oracleT [jsUpper s])
      (jsUpper s) = false := by
    unfold MD.fetchedTruthy
    rw [hfail]
  have hmark : MD.cacheAfterMark
      (MD.cacheAfterFetch st.cache ts (MD.fetchedList oracleY oracleT [jsUpper s]))
      ts (MD.fetchedList oracleY oracleT [jsUpper s]) [jsUpper s] (jsUpper s)
      = some { val := .noData, ts := ts } := by
    unfold MD.cacheAfterMark
    rw [List.foldl_cons, List.foldl_nil]
    rw [if_neg (by simp [hft, hc1])]
    simp [updF]
  have hstate_cache : (MD.fetchQuotes oracleY oracleT st now ts [s]).state.cache
      = MD.cacheAfterMark
        (MD.cacheAfterFetch st.cache ts (MD.fetchedList oracleY oracleT [jsUpper s]))
        ts (MD.fetchedList oracleY oracleT [jsUpper s]) [jsUpper s] := by
    simp only [MD.fetchQuotes]
    rw [if_neg (by simp), hstale]
  have hstate_ttl : (MD.fetchQuotes oracleY oracleT st now ts [s]).state.cacheTTL
      = st.cacheTTL := by
    simp only [MD.fetchQuotes]
    rw [if_neg (by simp)]
  have hfirst : (MD.fetchQuotes oracleY oracleT st now ts [s]).state.cache (jsUpper s)
      = some { val := .noData, ts := ts } := by
    rw [hstate_cache, hmark]
  refine ⟨hfirst, ?_⟩
  intro now2 ts2 hts
  set st1 := (MD.fetchQuotes oracleY oracleT st now ts [s]).state with hst1def
  have hstale2 : MD.staleList st1.cache st1.cacheTTL now2 (MD.upperList [s])
      = [] := by
    unfold MD.staleList MD.upperList
    simp only [List.map_cons, List.map_nil, List.filter_cons]
    rw [if_neg (by
      unfold MD.isStaleAt
      rw [hfirst, hstate_ttl]
      simp only [decide_eq_true_eq]
      intro hgt
      simp at hgt
      omega)]
    rfl
  constructor
  · simp only [MD.fetchQuotes]
    rw [if_neg (by simp), hstale2]
    rfl
  · simp only [MD.fetchQuotes]
    rw [if_neg (by simp), hstale2]
    rw [resultOf_lookup (by
      show jsUpper s ∈ MD.upperList [s]
      exact List.mem_map_of_mem _ (List.mem_singleton_self s))]
    have hid : MD.cacheAfterMark
        (MD.cacheAfterFetch st1.cache ts2
          (MD.fetchedList oracleY oracleT [])) ts2
        (MD.fetchedList oracleY oracleT []) [] (jsUpper s)
        = st1.cache (jsUpper s) := by
      rfl
    rw [hid, hfirst]
    rfl

theorem cacheAfterFetch_isSome {cache : String → Option CacheEntry} {ts : Int}
    {fetched : List (String × Option Quote)} {u : String}
    (h : (MD.cacheAfterFetch cache ts fetched u).isSome = true) :
    (cache u).isSome = true ∨ ∃ p ∈ fetched, (p : String × Option Quote).1 = u :=
  foldl_write_isSome _ Prod.fst
    (fun c b v hv => by simp [updF, hv]) fetched cache u h

theorem cacheAfterMark_isSome {cache : String → Option CacheEntry} {ts : Int}
    {fetched : List (String × Option Quote)} {stale : List String} {u : String}
    (h : (MD.cacheAfterMark cache ts fetched stale u).isSome = true) :
    (cache u).isSome = true ∨ u ∈ stale := by
  rcases foldl_write_isSome _ id
    (fun c b v hv => by
      by_cases hb : MD.fetchedTruthy fetched b ∨ (c b).isSome
      · simp only [if_pos hb]
      · simp only [if_neg hb, updF]
        rw [if_neg (by simpa using hv)]) stale cache u h with h1 | ⟨b, hb, hk⟩
  · exact Or.inl h1
  · simp only [id_eq] at hk
    subst hk
    exact Or.inr hb

/-- Claim C10 (confirmed): the public interface is case-insensitive in
symbols — `getCached(s)` equals `getCached(s.toUpperCase())` in both module
variants; the result object of `fetchQuotes([s])` is keyed by the
uppercased symbol; and `fetchQuotes` only ever writes cache entries under
uppercased (fixed-point) keys, so a cache satisfying that invariant keeps
it. -/
theorem c10_symbols_case_insensitive :
    (∀ (st : MD.State) (s : String),
      MD.getCached st s = MD.getCached st (jsUpper s))
    ∧ (∀ (st : TD.State) (s : String),
      TD.getCached st s = TD.getCached st (jsUpper s))
    ∧ (∀ (oracleY : String → Option Quote)
        (oracleT : List String → Option (String → Option Json)) (st : MD.State)
        (now ts : Int) (s : String),
        ((MD.fetchQuotes oracleY oracleT st now ts [s]).result).map Prod.fst
          = [jsUpper s])
    ∧ (∀ (oracleY : String → Option Quote)
        (oracleT : List String → Option (String → Option Json)) (st : MD.State)
        (now ts : Int) (symbols : List String),
        (∀ k, (st.cache k).isSome = true → jsUpper k = k) →
        ∀ k, ((MD.fetchQuotes oracleY oracleT st now ts
          symbols).state.cache k).isSome = true → jsUpper k = k) := by
  refine ⟨?_, ?_, ?_, ?_⟩
  · intro st s
    unfold MD.getCached
    rw [jsUpper_idem]
  · intro st s
    unfold TD.getCached
    rw [jsUpper_idem]
  · intro oracleY oracleT st now ts s
    simp only [MD.fetchQuotes]
    rw [if_neg (by simp)]
    simp [MD.resultOf, MD.upperList]
  · intro oracleY oracleT st now ts symbols hinv k hk
    by_cases hne : symbols.isEmpty = true
    · rw [show MD.fetchQuotes oracleY oracleT st now ts symbols
        = { result := [], state := st, attempts := [] } by
          simp only [MD.fetchQuotes]; rw [if_pos hne]] at hk
      exact hinv k hk
    · simp only [MD.fetchQuotes] at hk
      rw [if_neg hne] at hk
      rcases cacheAfterMark_isSome hk with h1 | h1
      · rcases cacheAfterFetch_isSome h1 with h2 | h2
        · exact hinv k h2
        · obtain ⟨p, hp, hpk⟩ := h2
          have hmem : p.1 ∈ MD.staleList st.cache st.cacheTTL now
              (MD.upperList symbols) := fetchedList_keys p hp
          have hup : p.1 ∈ MD.upperList symbols := List.mem_of_mem_filter hmem
          rw [← hpk]
          exact jsUpper_fix_of_mem hup
      · exact jsUpper_fix_of_mem (List.mem_of_mem_filter h1)

/-! Lemmas about the rate limiter. -/

theorem dispatch_ge_now (stamps : List Int) (now : Int) :
    now ≤ RL.dispatchTime stamps now := by
  simp only [RL.dispatchTime]
  split
  · split <;> omega
  · omega

theorem dispatch_eq {stamps : List Int} {now : Int}
    (hlen : RL.MAX_CALLS_PER_MINUTE ≤ (RL.pruneWindow stamps now).length) :
    RL.dispatchTime stamps now = (RL.pruneWindow stamps now).headD 0 + 60200 := by
  rcases hp : RL.pruneWindow stamps now with _ | ⟨t0, tl⟩
  · rw [hp] at hlen
    simp [RL.MAX_CALLS_PER_MINUTE] at hlen
  · have hmem : t0 ∈ RL.pruneWindow stamps now := by
      rw [hp]; exact List.mem_cons_self _ _
    have ht0 : now - t0 < 60000 := by
      have := List.of_mem_filter hmem
      simpa using this
    simp only [RL.dispatchTime]
    rw [hp] at hlen ⊢
    rw [if_pos hlen]
    simp only [List.headD_cons]
    rw [if_pos (by omega)]
    omega

theorem recordCall_le {stamps : List Int} {now : Int}
    (hb : ∀ t ∈ stamps, t ≤ now) :
    ∀ t ∈ RL.recordCall stamps now, t ≤ RL.dispatchTime stamps now := by
  intro t ht
  rcases List.mem_append.mp ht with h | h
  · have h1 : t ∈ stamps := List.mem_of_mem_filter h
    exact le_trans (hb t h1) (dispatch_ge_now stamps now)
  · rw [List.mem_singleton.mp h]

theorem cw_zero {L : List Int} {T : Int} (h : ∀ t ∈ L, T < t) :
    RL.countIn L T = 0 := by
  unfold RL.countIn
  rw [List.countP_eq_zero]
  intro a ha
  simp only [decide_eq_true_eq, not_and]
  intro _
  have := h a ha
  omega

theorem cw_le_length (L : List Int) (T : Int) : RL.countIn L T ≤ L.length :=
  List.countP_le_length _

theorem cw_prune_eq {stamps : List Int} {now T : Int} (hT : now ≤ T) :
    RL.countIn (RL.pruneWindow stamps now) T = RL.countIn stamps T := by
  unfold RL.countIn RL.pruneWindow
  rw [List.countP_filter]
  apply List.countP_congr
  intro a _
  by_cases hw : T - a < 60000 ∧ a ≤ T
  · have : now - a < 60000 := by omega
    simp [hw, this]
  · simp [hw]

theorem pruned_length_eq {stamps : List Int} {now : Int}
    (hb : ∀ t ∈ stamps, t ≤ now) :
    (RL.pruneWindow stamps now).length = RL.countIn stamps now := by
  unfold RL.pruneWindow RL.countIn
  rw [← List.countP_eq_length_filter]
  apply List.countP_congr
  intro a ha
  have := hb a ha
  by_cases h : now - a < 60000 <;> simp [h, this]

theorem window_bound_step {stamps : List Int} {now : Int}
    (hb : ∀ t ∈ stamps, t ≤ now)
    (hJ : ∀ T, RL.countIn stamps T ≤ 8) :
    ∀ T, RL.countIn (RL.recordCall stamps now) T ≤ 8 := by
  intro T
  have happ : RL.countIn (RL.recordCall stamps now) T
      = RL.countIn (RL.pruneWindow stamps now) T
        + RL.countIn [RL.dispatchTime stamps now] T := by
    unfold RL.recordCall RL.countIn
    rw [List.countP_append]
  rw [happ]
  have hsing : RL.countIn [RL.dispatchTime stamps now] T ≤ 1 :=
    cw_le_length _ _
  by_cases hlen : RL.MAX_CALLS_PER_MINUTE ≤ (RL.pruneWindow stamps now).length
  · have hlen_le : (RL.pruneWindow stamps now).length ≤ 8 := by
      rw [pruned_length_eq hb]
      exact hJ now
    have hd : RL.dispatchTime stamps now
        = (RL.pruneWindow stamps now).headD 0 + 60200 := dispatch_eq hlen
    rcases hp : RL.pruneWindow stamps now with _ | ⟨t0, tl⟩
    · rw [hp] at hlen
      simp [RL.MAX_CALLS_PER_MINUTE] at hlen
    · have htl : tl.length ≤ 7 := by
        rw [hp] at hlen_le
        simpa using hlen_le
      rw [hp] at hd
      simp only [List.headD_cons] at hd
      by_cases hdw : T - RL.dispatchTime stamps now < 60000
          ∧ RL.dispatchTime stamps now ≤ T
      · have ht0out : ¬(T - t0 < 60000 ∧ t0 ≤ T) := by
          intro hc
          omega
        have hprc : RL.countIn (t0 :: tl) T = RL.countIn tl T := by
          unfold RL.countIn
          rw [List.countP_cons]
          simp [ht0out]
        have htlc : RL.countIn tl T ≤ 7 :=
          le_trans (cw_le_length tl T) htl
        rw [hprc]
        omega
      · have hz : RL.countIn [RL.dispatchTime stamps now] T = 0 := by
          unfold RL.countIn
          simp [hdw]
        have hpc : RL.countIn (t0 :: tl) T ≤ tl.length + 1 := by
          have h1 := cw_le_length (t0 :: tl) T
          simpa using h1
        omega
  · have h7 : (RL.pruneWindow stamps now).length ≤ 7 := by
      simp only [RL.MAX_CALLS_PER_MINUTE, not_le] at hlen
      omega
    have hpc : RL.countIn (RL.pruneWindow stamps now) T
        ≤ (RL.pruneWindow stamps now).length := cw_le_length _ _
    omega

theorem runCalls_ge : ∀ (reqs stamps : List Int) (last : Int),
    ∀ d ∈ RL.runCalls stamps last reqs, last ≤ d := by
  intro reqs
  induction reqs with
  | nil => intro stamps last d hd; cases hd
  | cons r rs ih =>
    intro stamps last d hd
    simp only [RL.runCalls] at hd
    rcases List.mem_cons.mp hd with h | h
    · rw [h]
      exact le_trans (le_max_right r last) (dispatch_ge_now stamps (max r last))
    · have h1 := ih _ _ d h
      exact le_trans (le_trans (le_max_right r last)
        (dispatch_ge_now stamps (max r last))) h1

theorem runCalls_window_main : ∀ (reqs stamps : List Int) (last T : Int),
    (∀ t ∈ stamps, t ≤ last) → (∀ T', RL.countIn stamps T' ≤ 8) → last ≤ T →
    RL.countIn (RL.runCalls stamps last reqs) T + RL.countIn stamps T ≤ 8 := by
  intro reqs
  induction reqs with
  | nil =>
    intro stamps last T _ hJ _
    have h1 := hJ T
    have h2 : RL.countIn (RL.runCalls stamps last []) T = 0 := rfl
    omega
  | cons r rs ih =>
    intro stamps last T hb hJ hT
    have hb' : ∀ t ∈ stamps, t ≤ max r last :=
      fun t ht => le_trans (hb t ht) (le_max_right r last)
    have hdn : max r last ≤ RL.dispatchTime stamps (max r last) :=
      dispatch_ge_now stamps (max r last)
    have hb2 : ∀ t ∈ RL.recordCall stamps (max r last),
        t ≤ RL.dispatchTime stamps (max r last) := recordCall_le hb'
    have hJ2 : ∀ T', RL.countIn (RL.recordCall stamps (max r last)) T' ≤ 8 :=
      window_bound_step hb' hJ
    have hcons : RL.countIn (RL.runCalls stamps last (r :: rs)) T
        = RL.countIn (RL.runCalls (RL.recordCall stamps (max r last))
            (RL.dispatchTime stamps (max r last)) rs) T
          + (if (T - RL.dispatchTime stamps (max r last) < 60000
              ∧ RL.dispatchTime stamps (max r last) ≤ T) then 1 else 0) := by
      simp only [RL.runCalls, RL.countIn, List.countP_cons, decide_eq_true_eq]
    rw [hcons]
    by_cases hdT : RL.dispatchTime stamps (max r last) ≤ T
    · have hIH := ih (RL.recordCall stamps (max r last))
        (RL.dispatchTime stamps (max r last)) T hb2 hJ2 hdT
      have hrc : RL.countIn (RL.recordCall stamps (max r last)) T
          = RL.countIn (RL.pruneWindow stamps (max r last)) T
            + (if (T - RL.dispatchTime stamps (max r last) < 60000
                ∧ RL.dispatchTime stamps (max r last) ≤ T) then 1 else 0) := by
        unfold RL.recordCall RL.countIn
        rw [List.countP_append]
        congr 1
        simp [List.countP_cons]
      have hpr : RL.countIn (RL.pruneWindow stamps (max r last)) T
          = RL.countIn stamps T := by
        have hnT : max r last ≤ T := le_trans hdn hdT
        exact cw_prune_eq hnT
      rw [hrc, hpr] at hIH
      by_cases hw : T - RL.dispatchTime stamps (max r last) < 60000
          ∧ RL.dispatchTime stamps (max r last) ≤ T
      · simp only [if_pos hw] at hIH ⊢
        omega
      · simp only [if_neg hw] at hIH ⊢
        omega
    · have hind : ¬(T - RL.dispatchTime stamps (max r last) < 60000
          ∧ RL.dispatchTime stamps (max r last) ≤ T) := fun hc => hdT hc.2
      have htail : RL.countIn (RL.runCalls (RL.recordCall stamps (max r last))
          (RL.dispatchTime stamps (max r last)) rs) T = 0 := by
        apply cw_zero
        intro t ht
        have h1 := runCalls_ge rs _ _ t ht
        omega
      have h2 := hJ T
      rw [htail, if_neg hind]
      omega

/-- Claim C4 (confirmed): when the pruned window already holds the
per-minute quota (8 recorded timestamps within the last 60 s), `_apiCall`
does not dispatch the next call until the oldest of them has left the
60-second window plus the 200 ms safety margin — the dispatch instant is
exactly `oldest + 60200` (and under the list's monotone order the head is
indeed the oldest).  Along any sequence of awaited `_apiCall`s starting
from an empty timestamp list, no 60-second window ever contains more than
the quota of dispatched calls.  The new call's timestamp is recorded after
the wait: the list becomes the pruned window plus the dispatch instant,
which is never before the request instant. -/
theorem c4_rate_limiter_sliding_window :
    (∀ (stamps : List Int) (now : Int),
      RL.MAX_CALLS_PER_MINUTE ≤ (RL.pruneWindow stamps now).length →
      RL.dispatchTime stamps now = (RL.pruneWindow stamps now).headD 0 + 60200 ∧
      (stamps.Sorted (· ≤ ·) →
        ∀ t ∈ RL.pruneWindow stamps now, (RL.pruneWindow stamps now).headD 0 ≤ t))
    ∧ (∀ (reqs : List Int) (last T : Int),
        RL.countIn (RL.runCalls [] last reqs) T ≤ RL.MAX_CALLS_PER_MINUTE)
    ∧ (∀ (stamps : List Int) (now : Int),
        RL.recordCall stamps now
          = RL.pruneWindow stamps now ++ [RL.dispatchTime stamps now] ∧
        now ≤ RL.dispatchTime stamps now) := by
  refine ⟨?_, ?_, ?_⟩
  · intro stamps now hlen
    refine ⟨dispatch_eq hlen, ?_⟩
    intro hsort t ht
    have hsort' : (RL.pruneWindow stamps now).Sorted (· ≤ ·) :=
      hsort.filter _
    rcases hp : RL.pruneWindow stamps now with _ | ⟨t0, tl⟩
    · rw [hp] at ht; cases ht
    · rw [hp] at ht hsort'
      simp only [List.headD_cons]
      rcases List.mem_cons.mp ht with h | h
      · rw [h]
      · exact List.rel_of_sorted_cons hsort' t h
  · intro reqs last T
    show RL.countIn (RL.runCalls [] last reqs) T ≤ 8
    by_cases hT : last ≤ T
    · have h1 := runCalls_window_main reqs [] last T
        (by intro t ht; cases ht) (by intro T'; simp [RL.countIn]) hT
      have h2 : RL.countIn ([] : List Int) T = 0 := rfl
      omega
    · have h1 : RL.countIn (RL.runCalls [] last reqs) T = 0 := by
        apply cw_zero
        intro t ht
        have := runCalls_ge reqs [] last t ht
        omega
      omega
  · intro stamps now
    exact ⟨rfl, dispatch_ge_now stamps now⟩

/-- C1 counterexample: with an empty cache and no API key configured, the
Twelve Data `fetchQuotes(["AAPL"])` call rejects with 'API key not set' and
issues zero upstream attempts, although "AAPL" has no cache entry (it is
stale) — refuting the unamended claim that every stale requested symbol
receives at least one upstream attempt (and that fresh symbols' cached
values are returned). -/
theorem c1_counterexample :
    TD.fetchQuotes noTDOracle noTaseOracle st0TD 0 0 ["AAPL"]
      = { result := .error "API key not set", state := st0TD, attempts := [] }
    ∧ MD.isStaleAt st0TD.cache st0TD.cacheTTL 0 "AAPL" = true :=
  ⟨rfl, rfl⟩

/-- C1 witness: a fresh AAPL entry (stamped 0, asked at 100 with a 5-minute
TTL) triggers no upstream attempt and is returned unchanged, in both
modelled variants. -/
theorem c1_witness :
    ("AAPL" ∉ (MD.fetchQuotes noYOracle noTBatch st9MD 100 100 ["AAPL"]).attempts
      ∧ (MD.fetchQuotes noYOracle noTBatch st9MD 100 100 ["AAPL"]).result.lookup
          "AAPL" = some (some (.q q0)))
    ∧ ("AAPL" ∉ ([] : List String)
      ∧ ([("AAPL", some (CacheVal.q q0))] : List (String × Option CacheVal)).lookup
          "AAPL" = some (some (.q q0))) := by
  constructor
  · exact (c1_ttl_gates_upstream_attempts.1 noYOracle noTBatch st9MD 100 100
      ["AAPL"] "AAPL" (List.mem_singleton_self _)).1
      { val := .q q0, ts := 0 } rfl (by decide)
  · exact (c1_ttl_gates_upstream_attempts.2 noTDOracle noTaseOracle stFreshTD
      100 100 ["AAPL"] "AAPL" [("AAPL", some (.q q0))] stFreshTD []
      (List.mem_singleton_self _) rfl).1
      { val := .q q0, ts := 0 } rfl (by decide)

/-- C2 witness: the three TASE resolvers at concrete minor-unit prices. -/
theorem c2_witness :
    (∃ q2, parseTASEResult "507012" (.obj [("price", .num 27650)]) = some q2
      ∧ q2.price = some (27650 / 100 : ℚ))
    ∧ (∃ q2, fundDetailsToQuote "512345"
        (some { UnitValuePrice := some 15230, DayYield := none,
                FundLongName := none, FundShortName := none }) = some q2
      ∧ q2.price = some (15230 / 100 : ℚ))
    ∧ (∃ q2 st2, TD.fetchTaseQuote
        (fun _ => some (⟨some 27650, none, none, none, none, none, none⟩ :
          TD.TASESec)) st0TD 0 "629014" = (some q2, st2)
      ∧ q2.price = some (27650 / 100 : ℚ)) := by
  refine ⟨?_, ?_, ?_⟩
  · exact c2_minor_unit_conversion.2.1 "507012" _ 27650 rfl (by norm_num)
  · exact c2_minor_unit_conversion.2.2.1 "512345" _ 15230 rfl
  · exact c2_minor_unit_conversion.2.2.2 _ st0TD 0 "629014" _ 27650 rfl rfl
      (by norm_num)

/-- C4 witness: 8 timestamps of the last minute delay the 9th call until
the oldest (0) has left the window plus the margin; a concrete run stays
within quota; the record equation at a concrete list. -/
theorem c4_witness :
    RL.dispatchTime [0, 10, 20, 30, 40, 50, 60, 70] 100 = 60200
    ∧ RL.countIn (RL.runCalls [] 0 [10, 20, 30]) 25 ≤ RL.MAX_CALLS_PER_MINUTE
    ∧ RL.recordCall [5] 10
        = RL.pruneWindow [5] 10 ++ [RL.dispatchTime [5] 10] := by
  refine ⟨?_, ?_, ?_⟩
  · have h := (c4_rate_limiter_sliding_window.1 [0, 10, 20, 30, 40, 50, 60, 70]
      100 (by decide)).1
    rw [h]
    decide
  · exact c4_rate_limiter_sliding_window.2.1 [10, 20, 30] 0 25
  · exact (c4_rate_limiter_sliding_window.2.2 [5] 10).1

/-- C5 witness: the key gate at concrete states — rejection without a key,
`.ok` results with one, including right after `configure`. -/
theorem c5_witness :
    TD.fetchQuotes noTDOracle noTaseOracle st0TD 0 0 ["MSFT"]
      = { result := .error "API key not set", state := st0TD, attempts := [] }
    ∧ (∃ r, (TD.fetchQuotes noTDOracle noTaseOracle stKeyTD 0 0
        ["MSFT"]).result = .ok r)
    ∧ TD.fetchHistorical (fun _ => (none, none)) st0TD 0 0 ["MSFT"]
      = (.error "API key not set", st0TD)
    ∧ (∃ r, (TD.fetchHistorical (fun _ => (none, none)) stKeyTD 0 0
        ["MSFT"]).1 = .ok r)
    ∧ TD.fetchForexRates none (none, none) st0TD 0 0
      = (.error "API key not set", st0TD)
    ∧ (∃ r, (TD.fetchForexRates none (none, none) stKeyTD 0 0).1 = .ok r)
    ∧ (∃ r, (TD.fetchQuotes noTDOracle noTaseOracle
        (TD.configure { cacheTTL := none, apiKey := some "K" } st0TD) 0 0
          ["MSFT"]).result = .ok r) := by
  refine ⟨?_, ?_, ?_, ?_, ?_, ?_, ?_⟩
  · exact c5_missing_key_rejects.1 noTDOracle noTaseOracle st0TD 0 0 ["MSFT"]
      rfl rfl
  · exact c5_missing_key_rejects.2.1 noTDOracle noTaseOracle stKeyTD 0 0
      ["MSFT"] (by decide)
  · exact c5_missing_key_rejects.2.2.1 (fun _ => (none, none)) st0TD 0 0
      ["MSFT"] rfl rfl
  · exact c5_missing_key_rejects.2.2.2.1 (fun _ => (none, none)) stKeyTD 0 0
      ["MSFT"] (by decide)
  · exact c5_missing_key_rejects.2.2.2.2.1 none (none, none) st0TD 0 0 rfl
  · exact c5_missing_key_rejects.2.2.2.2.2.1 none (none, none) stKeyTD 0 0
      (by decide)
  · exact c5_missing_key_rejects.2.2.2.2.2.2 noTDOracle noTaseOracle st0TD 0 0
      ["MSFT"] "K" (by decide)

/-- C6 witness: an HTML challenge page on the first proxy, valid JSON on
the second — the final result is the second layer's body. -/
theorem c6_witness :
    PX.fetchViaProxy (fun _ => true)
      [.httpResp true "<html>blocked</html>", .httpResp true "\x7b\x7d"]
      = some "\x7b\x7d" :=
  c6_html_block_skips_layer.2 (fun _ => true) "<html>blocked</html>" "\x7b\x7d"
    [] (fun c hc => by
      rw [show PX.firstNonWs "<html>blocked</html>" = some '<' from rfl] at hc
      cases hc
      exact ⟨by decide, by decide⟩) rfl rfl

/-- C7 witness: resolving CAAP through the NYSE-suffixed candidate stores
and persists "CAAP:NYSE", after which the candidate list is exactly that
resolution. -/
theorem c7_witness :
    ∃ w, st7.emap "CAAP" = some w ∧ w ≠ "" ∧ st7.lsEmap = st7.emap ∧
      TD.trySymbolsOf st7.emap "CAAP" = [w] :=
  c7_exchange_resolution.1 oracle7 noTaseOracle st0TD 0 "CAAP" q7 st7
    (by decide) (by decide) rfl

/-- C9 counterexample: AAPL has an expired entry (stamped 0, TTL 5 min,
fetched at t=10⁶) and every provider fails; the cache still holds the OLD
entry with its OLD timestamp — not `{price: null}` stamped with the fetch
time — and a second call 100 ms later (well within the TTL of the failed
fetch) issues an upstream attempt again, refuting the unamended claim. -/
theorem c9_counterexample :
    ((MD.fetchQuotes noYOracle noTBatch st9MD 1000000 1000000
        ["AAPL"]).state.cache "AAPL" = some { val := .q q0, ts := 0 })
    ∧ ((MD.fetchQuotes noYOracle noTBatch st9MD 1000000 1000000
        ["AAPL"]).state.cache "AAPL" ≠ some { val := .noData, ts := 1000000 })
    ∧ ((1000100 : Int) - 1000000 ≤ st9MD.cacheTTL)
    ∧ ((MD.fetchQuotes noYOracle noTBatch
        (MD.fetchQuotes noYOracle noTBatch st9MD 1000000 1000000 ["AAPL"]).state
        1000100 1000100 ["AAPL"]).attempts = ["AAPL"]) := by
  refine ⟨rfl, ?_, by decide, rfl⟩
  rw [show (MD.fetchQuotes noYOracle noTBatch st9MD 1000000 1000000
      ["AAPL"]).state.cache "AAPL" = some { val := .q q0, ts := 0 } from rfl]
  intro h
  simp only [Option.some.injEq, CacheEntry.mk.injEq] at h
  exact absurd h.2 (by decide)

/-- C9 witness: a never-cached symbol failing on every provider is
negatively cached with the fetch timestamp, and the next call within the
TTL makes no attempt. -/
theorem c9_witness :
    ((MD.fetchQuotes noYOracle noTBatch st0MD 50 60 ["MSFT"]).state.cache
        (jsUpper "MSFT") = some { val := .noData, ts := 60 })
    ∧ ((MD.fetchQuotes noYOracle noTBatch
        (MD.fetchQuotes noYOracle noTBatch st0MD 50 60 ["MSFT"]).state
        100 110 ["MSFT"]).attempts = []) := by
  have h := c9_negative_cache_for_uncached_failures noYOracle noTBatch st0MD
    50 60 "MSFT" rfl rfl
  exact ⟨h.1, (h.2 100 110 (by decide)).1⟩

/-- C10 witness: the uppercased key written by a lowercase request is a
fixed point of uppercasing. -/
theorem c10_witness : jsUpper "AAPL" = "AAPL" :=
  c10_symbols_case_insensitive.2.2.2 noYOracle noTBatch st0MD 0 0 ["aapl"]
    (fun _ h => Bool.noConfusion h) "AAPL" rfl
